import Mathlib

/-!
Verification of the `zaber_bson` BSON codec (`src/zaber_bson/codec.py`,
`src/zaber_bson/__init__.py`) against its specification.

The Python code is shallowly embedded: Python `bytes` values become
`List Nat` (each element `< 256`), Python `str` values become lists of
Unicode code points (`List Nat`), machine integers are `Int`/`Nat` with
explicit range checks where `struct.pack`/`struct.unpack` impose them,
Python exceptions become an `Err` sum type through `Except`, and the
in-place mutation of the traversal stack (plus the observable calls to the
caller-supplied key-ordering hook) becomes explicit state passing of an
`EncSt` record.  IEEE-754 doubles are represented by their 64-bit pattern:
`struct.pack "<d"` / `struct.unpack "<d"` are exact inverses on bit
patterns, so the codec never inspects the numeric value of a double.
Recursive traversals take a fuel parameter; every recursive call consumes
one unit, and all theorems either quantify over the fuel or supply a
concrete sufficient amount.
-/

set_option maxRecDepth 8000

namespace ZBson

/-! ## Byte-level primitives -/

/-- Little-endian byte serialisation of a natural number into `k` bytes
(the behaviour of `struct.pack` for unsigned fields, after the range
check has been performed). -/
def leBytes : Nat → Nat → List Nat
  | 0, _ => []
  | k + 1, n => n % 256 :: leBytes k (n / 256)

/-- Little-endian byte deserialisation (the behaviour of
`struct.unpack` for unsigned fields). -/
def fromLE : List Nat → Nat
  | [] => 0
  | b :: bs => b + 256 * fromLE bs

/-- Interpret `w*8`-bit little-endian bytes as a signed integer
(`struct.unpack` with a signed format code). -/
def sgnOf (w : Nat) (bs : List Nat) : Int :=
  let u := fromLE bs
  if u < 2 ^ (8 * w - 1) then (u : Int) else (u : Int) - 2 ^ (8 * w)

def sgn8 (bs : List Nat) : Int := sgnOf 1 bs

def sgn32 (bs : List Nat) : Int := sgnOf 4 bs

def sgn64 (bs : List Nat) : Int := sgnOf 8 bs

/-- `struct.pack "<i"`: range-checked signed 32-bit little-endian. -/
def packInt32 (i : Int) : Option (List Nat) :=
  if -2147483648 ≤ i ∧ i < 2147483648 then some (leBytes 4 (i % 4294967296).toNat)
  else none

/-- `struct.pack "<q"`: range-checked signed 64-bit little-endian. -/
def packInt64 (i : Int) : Option (List Nat) :=
  if -9223372036854775808 ≤ i ∧ i < 9223372036854775808 then
    some (leBytes 8 (i % 18446744073709551616).toNat)
  else none

/-- `struct.pack "<Q"`: range-checked unsigned 64-bit little-endian. -/
def packUInt64 (i : Int) : Option (List Nat) :=
  if 0 ≤ i ∧ i < 18446744073709551616 then some (leBytes 8 i.toNat)
  else none

/-- Python slice-bound adjustment: negative indices count from the end,
and both ends are clamped into `[0, len]`. -/
def sliceAdj (len : Nat) (i : Int) : Nat :=
  if i < 0 then ((len : Int) + i).toNat else min i.toNat len

/-- Python `data[i:j]`. -/
def pySlice (data : List Nat) (i j : Int) : List Nat :=
  (data.take (sliceAdj data.length j)).drop (sliceAdj data.length i)

/-- Python `data[i]` for `bytes`: negative indices wrap once; out of range
is an `IndexError`, modelled as `none`. -/
def pyIndexGet (data : List Nat) (i : Int) : Option Nat :=
  if i < 0 then
    if 0 ≤ (data.length : Int) + i then data.get? ((data.length : Int) + i).toNat else none
  else data.get? i.toNat

/-- Python `data.index(0, start)` for `bytes`: absolute index of the first
NUL byte at position `≥ start` (after slice-style adjustment of `start`),
or `none` for the `ValueError` Python raises when there is none. -/
def pyFind (data : List Nat) (start : Int) : Option Nat :=
  let a := sliceAdj data.length start
  ((data.drop a).findIdx? (fun b => b = 0)).map (fun k => k + a)

/-- Encode one code point.  Python `str` may hold lone surrogates, which fail
strict UTF-8 encoding, so the result is optional. -/
def utf8EncodeChar (c : Nat) : Option (List Nat) :=
  if c < 0x80 then some [c]
  else if c < 0x800 then some [0xC0 + c / 64, 0x80 + c % 64]
  else if c < 0x10000 then
    if 0xD800 ≤ c ∧ c ≤ 0xDFFF then none
    else some [0xE0 + c / 4096, 0x80 + c / 64 % 64, 0x80 + c % 64]
  else if c < 0x110000 then
    some [0xF0 + c / 262144, 0x80 + c / 4096 % 64, 0x80 + c / 64 % 64, 0x80 + c % 64]
  else none

/-- Encode a whole Python string (list of code points). -/
def utf8Encode : List Nat → Option (List Nat)
  | [] => some []
  | c :: cs => do
      let b ← utf8EncodeChar c
      let bs ← utf8Encode cs
      some (b ++ bs)

/-- Continuation byte test. -/
def utf8Cont (b : Nat) : Bool := 0x80 ≤ b && b ≤ 0xBF

/-- Decode one code point from the front of a byte list, rejecting
overlong forms, surrogates and values above `0x10FFFF`, as CPython's
strict `utf-8` codec does.  Returns the code point and the remaining
bytes. -/
def utf8DecodeChar : List Nat → Option (Nat × List Nat)
  | [] => none
  | b0 :: rest =>
    if b0 < 0x80 then some (b0, rest)
    else if 0xC2 ≤ b0 ∧ b0 ≤ 0xDF then
      match rest with
      | b1 :: rest2 =>
          if utf8Cont b1 then some ((b0 - 0xC0) * 64 + (b1 - 0x80), rest2)
          else none
      | [] => none
    else if 0xE0 ≤ b0 ∧ b0 ≤ 0xEF then
      match rest with
      | b1 :: b2 :: rest3 =>
          if (if b0 = 0xE0 then decide (0xA0 ≤ b1 ∧ b1 ≤ 0xBF)
              else if b0 = 0xED then decide (0x80 ≤ b1 ∧ b1 ≤ 0x9F)
              else utf8Cont b1) && utf8Cont b2 then
            some ((b0 - 0xE0) * 4096 + (b1 - 0x80) * 64 + (b2 - 0x80), rest3)
          else none
      | _ => none
    else if 0xF0 ≤ b0 ∧ b0 ≤ 0xF4 then
      match rest with
      | b1 :: b2 :: b3 :: rest4 =>
          if (if b0 = 0xF0 then decide (0x90 ≤ b1 ∧ b1 ≤ 0xBF)
              else if b0 = 0xF4 then decide (0x80 ≤ b1 ∧ b1 ≤ 0x8F)
              else utf8Cont b1) && utf8Cont b2 && utf8Cont b3 then
            some ((b0 - 0xF0) * 262144 + (b1 - 0x80) * 4096 + (b2 - 0x80) * 64 + (b3 - 0x80),
              rest4)
          else none
      | _ => none
    else none

/-- Fuelled loop for whole-list UTF-8 decoding; `bs.length` fuel always
suffices because each step consumes at least one byte. -/
def utf8DecodeF : Nat → List Nat → Option (List Nat)
  | _, [] => some []
  | 0, _ :: _ => none
  | f + 1, b0 :: rest0 =>
      match utf8DecodeChar (b0 :: rest0) with
      | none => none
      | some (c, rest) => (utf8DecodeF f rest).map (c :: ·)

/-- Strict UTF-8 decoding of a whole byte list into code points
(`bytes.decode("utf-8")`; `none` is `UnicodeDecodeError`). -/
def utf8Decode (bs : List Nat) : Option (List Nat) := utf8DecodeF bs.length bs

/-- A Python element name: `str` (code points) or `bytes`. -/
inductive PyKey where
  | str (s : List Nat)
  | bytes (b : List Nat)

deriving DecidableEq, Repr

inductive Value where
  | bool (b : Bool)
  | int (i : Int)
  | i32 (i : Int)
  | i64 (i : Int)
  | u64 (i : Int)
  | double (bits : Nat)
  | decimal (bits : Nat)
  | str (s : List Nat)
  | bin (b : List Nat)
  | uuid (b : List Nat)
  | dt (secs : Int) (usec : Nat) (tz : Bool)
  | null
  | doc (kvs : List (PyKey × Value))
  | arr (xs : List Value)
  | obj (name : List Nat) (state : List (PyKey × Value))
  | unknown (u : Nat)

/-- A Python `dict` with `str`/`bytes` keys, in insertion order. -/
abbrev PyDict := List (PyKey × Value)

/-- Python code points of a Lean string literal (helper for examples). -/
def pstr (s : String) : List Nat := s.data.map Char.toNat

/-- The reserved class-marker key `$$__CLASS_NAME__$$`. -/
def CLASSNAME_KEY : PyKey := .str (pstr "$$__CLASS_NAME__$$")

/-- Python `dict` lookup `obj[name]` (first binding; keys are unique in a
real `dict`). -/
def pyDictGet : PyDict → PyKey → Option Value
  | [], _ => none
  | (k', v) :: rest, k => if k' = k then some v else pyDictGet rest k

/-- Python `dict` item assignment `obj[name] = value`: overwrite in place
keeping the original position, else append. -/
def pyInsert : PyDict → PyKey → Value → PyDict
  | [], k, v => [(k, v)]
  | (k', v') :: rest, k, v =>
      if k' = k then (k', v) :: rest else (k', v') :: pyInsert rest k v

/-- Python truthiness of the modelled values (`bool(v)`).  Wrapper,
`UUID`, `datetime`, `BSONCoding` and unrecognised objects are plain
objects without `__bool__`/`__len__` and are always truthy. -/
def pyTruthy : Value → Bool
  | .null => false
  | .bool b => b
  | .int i => decide (i ≠ 0)
  | .i32 _ => true
  | .i64 _ => true
  | .u64 _ => true
  | .double bits => decide (bits ≠ 0 ∧ bits ≠ 0x8000000000000000)
  | .decimal bits => decide (bits ≠ 0 ∧ bits ≠ 0x8000000000000000)
  | .str s => !s.isEmpty
  | .bin b => !b.isEmpty
  | .uuid _ => true
  | .dt _ _ _ => true
  | .doc kvs => !kvs.isEmpty
  | .arr xs => !xs.isEmpty
  | .obj _ _ => true
  | .unknown _ => true

/-- Python `a or b`. -/
def pyOr (a b : Value) : Value := if pyTruthy a then a else b

/-- Errors: the exceptions the codec can raise.  Names follow the spec's
error taxonomy; `structError`, `indexError`, `keyError`, `valueNotFound`
(from `bytes.index`), `attributeError`, `unicodeEncodeError` and
`uuidValueError` are the host exceptions from `struct.unpack`/`pack`,
indexing, dict lookup, substring search, attribute access, `str.encode`
and `UUID(bytes=...)`.  `fuelOut` is the model's fuel exhaustion. -/
inductive Err where
  | invalidName
  | integerOverflow
  | unknownSerializer (key : PyKey) (value : Value)
  | malformedDocument
  | unknownElementType (tag : Int)
  | invalidUtf8
  | missingClassDefinition (name : Value)
  | structError
  | indexError
  | keyError (key : PyKey)
  | valueNotFound
  | attributeError
  | unicodeEncodeError
  | uuidValueError
  | fuelOut

/-- A frame of the traversal stack (`TraversalStep`): the parent container
(or the `BSONCoding` instance standing for it) and the key under which the
current element was reached — an element name for documents, an integer
index for arrays. -/
inductive FrameKey where
  | key (k : PyKey)
  | idx (i : Nat)

deriving DecidableEq, Repr

structure TraversalStep where
  parent : Value
  key : FrameKey

/-- The encoder's effect state: the traversal stack (a Python list mutated
in place, modelled by state passing) and the log of invocations of the
caller-supplied key-ordering hook — each recorded as the container and the
stack contents at the moment of the call, which is how the effect of
calling the hook is observed. -/
structure EncSt where
  stack : List TraversalStep
  calls : List (PyDict × List TraversalStep)

/-- `generator_func`: maps the container and the current traversal stack
to the iteration order of keys. -/
abbrev GenFunc := PyDict → List TraversalStep → List PyKey

/-- `on_unknown`: maps an unrecognised value to a substitute value. -/
abbrev OnUnknown := Nat → Value

/-- A registered class: its `bson_init` takes the decoded mapping and
returns the Python return value of `bson_init` (`null` when it falls off
the end) together with the resulting instance state.  Instance mutation is
modelled by returning the new state. -/
structure Cls where
  bson_init : PyDict → Value × PyDict

/-- The process-wide registry `classes`, passed explicitly: class name
(code points of `cls.__name__`) to class. -/
abbrev Classes := List (List Nat × Cls)

/-- Registry lookup `classes[class_name]`: a `KeyError` (then converted to
`MissingClassDefinition`) unless the marker value is a string naming a
registered class. -/
def lookupClass : Classes → Value → Option (List Nat × Cls)
  | _, .bool _ => none
  | cs, .str s => (cs.find? (fun p => p.1 = s)).map (fun p => (p.1, p.2))
  | _, _ => none

/-- Decimal digits of a natural number as code points (Python `str(i)`). -/
def natToDecStr (n : Nat) : List Nat := (Nat.toDigits 10 n).map Char.toNat

/-- `binascii.b2a_hex`: lowercase hex expansion, one byte to two ASCII
characters. -/
def hexDigit (n : Nat) : Nat := if n < 10 then 48 + n else 87 + n

def hexBytes : List Nat → List Nat
  | [] => []
  | b :: bs => hexDigit (b / 16) :: hexDigit (b % 16) :: hexBytes bs

/-- Round half to even of `a / b` (exact model of Python `round` on the
rational `a / b`, which is how `int(round(... + us / 1000.0))` behaves
in the datetime encoder; the float operations are exact at these
magnitudes). -/
def rheDiv (a b : Nat) : Nat :=
  let q := a / b
  let r := a % b
  if 2 * r < b then q
  else if b < 2 * r then q + 1
  else if q % 2 = 0 then q else q + 1

/-! ## Encoder: byte-level and scalar element codecs (`codec.py`)

Sequential fallible computations (each Python statement can raise) are
written with two explicit sequencing combinators, `ebind` (use the result
of a previous fallible step) and `oelim` (use the result of a host call
modelled as an `Option`, raising the named error on `none`). -/

def ebind {α β : Type} (x : Except Err α) (f : α → Except Err β) : Except Err β :=
  match x with
  | .error e => .error e
  | .ok a => f a

def oelim {α β : Type} (x : Option α) (e : Err) (f : α → Except Err β) : Except Err β :=
  match x with
  | none => .error e
  | some a => f a

/-- Name coercion in `encode_cstring`: `bytes` names are used as-is,
anything else goes through `str(value).encode("utf-8")` (which raises
`UnicodeEncodeError` on lone surrogates). -/
def pyKeyBytes : PyKey → Except Err (List Nat)
  | .bytes b => .ok b
  | .str s => oelim (utf8Encode s) .unicodeEncodeError .ok

/-- `encode_cstring`: coerce the name to bytes, reject embedded NUL
bytes (`InvalidName`), append the terminator. -/
def encode_cstring (value : PyKey) : Except Err (List Nat) :=
  ebind (pyKeyBytes value) fun bv =>
    if 0 ∈ bv then .error .invalidName else .ok (bv ++ [0])

/-- `encode_string`: UTF-8 encode, then `struct.pack "<i%dsb"` with
`length + 1`, the bytes, and a NUL. -/
def encode_string (value : List Nat) : Except Err (List Nat) :=
  oelim (utf8Encode value) .unicodeEncodeError fun bv =>
    oelim (packInt32 ((bv.length : Int) + 1)) .structError fun l =>
      .ok (l ++ bv ++ [0])

/-- `encode_binary`: `struct.pack "<ib"` of length and subtype, then the
payload bytes. -/
def encode_binary (value : List Nat) (binary_subtype : Nat) : Except Err (List Nat) :=
  oelim (packInt32 (value.length : Int)) .structError fun l =>
    .ok (l ++ [binary_subtype] ++ value)

/-- `encode_double`: `struct.pack "<d"`, the 8 bytes of the IEEE-754
pattern. -/
def encode_double (bits : Nat) : List Nat := leBytes 8 bits

def encode_double_element (name : PyKey) (bits : Nat) : Except Err (List Nat) :=
  ebind (encode_cstring name) fun cs => .ok (0x01 :: cs ++ encode_double bits)

def encode_string_element (name : PyKey) (value : List Nat) : Except Err (List Nat) :=
  ebind (encode_cstring name) fun cs =>
    ebind (encode_string value) fun sv => .ok (0x02 :: cs ++ sv)

def encode_binary_element (name : PyKey) (value : List Nat) (binary_subtype : Nat) :
    Except Err (List Nat) :=
  ebind (encode_cstring name) fun cs =>
    ebind (encode_binary value binary_subtype) fun bv => .ok (0x05 :: cs ++ bv)

def encode_boolean_element (name : PyKey) (value : Bool) : Except Err (List Nat) :=
  ebind (encode_cstring name) fun cs => .ok (0x08 :: cs ++ [if value then 1 else 0])

/-- `encode_utc_datetime_element`: epoch milliseconds
`int(round(timegm(utctimetuple) * 1000 + microsecond / 1000.0))`.  The
source computes this in binary64 floats; the model replaces it by exact
round-half-even of the rational `secs*1000 + usec/1000`.  The two agree
whenever `|secs| ≤ 2^31 - 1` (so `|ms| < 2^41`): there the float sum
`fl(secs*1000 + fl(usec/1000))` deviates from the rational by less than
`2.5e-4 < 1/2 · 10^-3`, so both round to the same integer except
possibly at exact ties `usec % 1000 = 500`; at a tie `usec/1000` is the
exactly representable `k + 0.5`, the sum is exact, and since
`secs*1000` is even, Python's banker's rounding of the float matches
`rheDiv` applied to `usec` alone plus `secs*1000`.  Theorems quantify
only over values with `supported = true`, whose datetimes satisfy this
bound; outside it the definition is an idealization of the float code.
A missing timezone only emits a non-fatal warning and is otherwise
ignored. -/
def encode_utc_datetime_element (name : PyKey) (secs : Int) (usec : Nat) (_tz : Bool) :
    Except Err (List Nat) :=
  ebind (encode_cstring name) fun cs =>
    oelim (packInt64 (secs * 1000 + (rheDiv usec 1000 : Int))) .structError fun bv =>
      .ok (0x09 :: cs ++ bv)

def encode_none_element (name : PyKey) : Except Err (List Nat) :=
  ebind (encode_cstring name) fun cs => .ok (0x0a :: cs)

/-- `encode_int32_element`: note the source packs the value before
encoding the name, so a `struct.error` from an out-of-range value wins
over `InvalidName`. -/
def encode_int32_element (name : PyKey) (value : Int) : Except Err (List Nat) :=
  oelim (packInt32 value) .structError fun bv =>
    ebind (encode_cstring name) fun cs => .ok (0x10 :: cs ++ bv)

def encode_uint64_element (name : PyKey) (value : Int) : Except Err (List Nat) :=
  ebind (encode_cstring name) fun cs =>
    oelim (packUInt64 value) .structError fun bv => .ok (0x11 :: cs ++ bv)

def encode_int64_element (name : PyKey) (value : Int) : Except Err (List Nat) :=
  ebind (encode_cstring name) fun cs =>
    oelim (packInt64 value) .structError fun bv => .ok (0x12 :: cs ++ bv)

/-! ## Encoder: dispatcher and containers

All functions thread the `EncSt` state (returned in both the success and
the error case, since a Python exception leaves the mutated stack behind)
and consume one unit of fuel per call.  Sequential writes to the Python
byte buffer with exception propagation are expressed with the two small
combinators below, and the common tail of `encode_document` /
`encode_array` (pack the length prefix, append the terminator) is
`pack_e_list`. -/

/-- Run the rest of the loop if the current element encoded successfully,
propagating errors (with the state the failing call left behind). -/
def stBind (p : EncSt × Except Err (List Nat))
    (k : List Nat → EncSt → EncSt × Except Err (List Nat)) :
    EncSt × Except Err (List Nat) :=
  match p.2 with
  | .error e => (p.1, .error e)
  | .ok bs => k bs p.1

/-- Transform the produced bytes of a step, keeping state and errors. -/
def stMap (f : List Nat → List Nat) (p : EncSt × Except Err (List Nat)) :
    EncSt × Except Err (List Nat) :=
  (p.1, p.2.map f)

/-- Assemble the document bytes from the element bytes and the result of
`struct.pack "<i"` on the total length. -/
def pack_with (st1 : EncSt) (e_list : List Nat) :
    Option (List Nat) → EncSt × Except Err (List Nat)
  | none => (st1, .error .structError)
  | some l => (st1, .ok (l ++ e_list ++ [0]))

/-- `struct.pack "<i%dsb" (len + 4 + 1) e_list 0` on the accumulated
element bytes. -/
def pack_bytes (st1 : EncSt) (e_list : List Nat) : EncSt × Except Err (List Nat) :=
  pack_with st1 e_list (packInt32 ((e_list.length : Int) + 4 + 1))

/-- The final lines of `encode_document`/`encode_array`: pack the length
prefix and terminator around the element bytes, propagating a failed
element loop. -/
def pack_e_list (p : EncSt × Except Err (List Nat)) : EncSt × Except Err (List Nat) :=
  match p.2 with
  | .error e => (p.1, .error e)
  | .ok e_list => pack_bytes p.1 e_list

/-- A fallible name-encoding step before a stateful continuation (the
`encode_cstring` prefix of the container element encoders). -/
def cstep (x : Except Err (List Nat)) (st : EncSt)
    (k : List Nat → EncSt × Except Err (List Nat)) : EncSt × Except Err (List Nat) :=
  match x with
  | .error e => (st, .error e)
  | .ok cs => k cs

/-- The `obj[name]` lookup step of the document element loop
(`KeyError` when a generator-produced key is absent). -/
def olift (x : Option Value) (st : EncSt) (e : Err)
    (k : Value → EncSt × Except Err (List Nat)) : EncSt × Except Err (List Nat) :=
  match x with
  | none => (st, .error e)
  | some v => k v

mutual

/-- `encode_value`: the value dispatcher, in source order. -/
def encode_value (fuel : Nat) (name : PyKey) (value : Value) (st : EncSt)
    (generator_func : Option GenFunc) (on_unknown : Option OnUnknown) :
    EncSt × Except Err (List Nat) :=
  match fuel with
  | 0 => (st, .error .fuelOut)
  | fuel + 1 =>
    match value with
    | .bool b => (st, encode_boolean_element name b)
    | .int i =>
        if i < -0x80000000 ∨ (0x7FFFFFFFFFFFFFFF ≥ i ∧ i > 0x7fffffff) then
          (st, encode_int64_element name i)
        else if i > 0x7FFFFFFFFFFFFFFF then
          if i > 0xFFFFFFFFFFFFFFFF then (st, .error .integerOverflow)
          else (st, encode_uint64_element name i)
        else (st, encode_int32_element name i)
    | .i32 i => (st, encode_int32_element name i)
    | .i64 i => (st, encode_int64_element name i)
    | .u64 i => (st, encode_uint64_element name i)
    | .double bits => (st, encode_double_element name bits)
    | .str s => (st, encode_string_element name s)
    | .bin b => (st, encode_binary_element name b 0)
    | .uuid b => (st, encode_binary_element name b 4)
    | .dt secs usec tz => (st, encode_utc_datetime_element name secs usec tz)
    | .null => (st, encode_none_element name)
    | .doc kvs => encode_document_element fuel name kvs st generator_func on_unknown
    | .arr xs => encode_array_element fuel name xs st generator_func on_unknown
    | .obj n s => encode_object_element fuel name n s st generator_func on_unknown
    | .decimal bits => (st, encode_double_element name bits)
    | .unknown u =>
        match on_unknown with
        | some h => encode_value fuel name (h u) st generator_func (some h)
        | none => (st, .error (.unknownSerializer name (.unknown u)))

/-- `encode_document`: choose the key iteration order (invoking and
logging the generator hook when present), encode the elements, then
prepend `int32(len + 5)` and append the NUL terminator. -/
def encode_document (fuel : Nat) (obj : PyDict) (st : EncSt) (traversal_parent : Value)
    (generator_func : Option GenFunc) (on_unknown : Option OnUnknown) :
    EncSt × Except Err (List Nat) :=
  match fuel with
  | 0 => (st, .error .fuelOut)
  | fuel + 1 =>
    match generator_func with
    | none =>
        pack_e_list (encode_elems fuel obj (obj.map Prod.fst) st traversal_parent
          none on_unknown)
    | some gf =>
        pack_e_list (encode_elems fuel obj (gf obj st.stack)
          {st with calls := st.calls ++ [(obj, st.stack)]} traversal_parent
          (some gf) on_unknown)

/-- The per-key loop of `encode_document`: look the value up, push a
traversal frame, encode the element, pop the frame. -/
def encode_elems (fuel : Nat) (obj : PyDict) (keys : List PyKey) (st : EncSt)
    (traversal_parent : Value) (generator_func : Option GenFunc)
    (on_unknown : Option OnUnknown) : EncSt × Except Err (List Nat) :=
  match fuel with
  | 0 => (st, .error .fuelOut)
  | fuel + 1 =>
    match keys with
    | [] => (st, .ok [])
    | name :: rest =>
      olift (pyDictGet obj name) st (.keyError name) fun value =>
        stBind (encode_value fuel name value
            {st with stack := st.stack ++ [⟨pyOr traversal_parent (.doc obj), .key name⟩]}
            generator_func on_unknown)
          (fun bs st2 =>
            stMap (fun bs2 => bs ++ bs2)
              (encode_elems fuel obj rest {st2 with stack := st2.stack.dropLast}
                traversal_parent generator_func on_unknown))

/-- `encode_array`: like `encode_document` but iterating positions, with
`str(i)` as the element name and the integer index in the frame; the
generator hook is not consulted for the iteration order. -/
def encode_array (fuel : Nat) (array : List Value) (st : EncSt) (traversal_parent : Value)
    (generator_func : Option GenFunc) (on_unknown : Option OnUnknown) :
    EncSt × Except Err (List Nat) :=
  match fuel with
  | 0 => (st, .error .fuelOut)
  | fuel + 1 =>
    pack_e_list (encode_arr_elems fuel array 0 array st traversal_parent
      generator_func on_unknown)

/-- The `enumerate(array)` loop of `encode_array`. -/
def encode_arr_elems (fuel : Nat) (array : List Value) (i : Nat) (items : List Value)
    (st : EncSt) (traversal_parent : Value) (generator_func : Option GenFunc)
    (on_unknown : Option OnUnknown) : EncSt × Except Err (List Nat) :=
  match fuel with
  | 0 => (st, .error .fuelOut)
  | fuel + 1 =>
    match items with
    | [] => (st, .ok [])
    | value :: rest =>
      stBind (encode_value fuel (.str (natToDecStr i)) value
          {st with stack := st.stack ++ [⟨pyOr traversal_parent (.arr array), .idx i⟩]}
          generator_func on_unknown)
        (fun bs st2 =>
          stMap (fun bs2 => bs ++ bs2)
            (encode_arr_elems fuel array (i + 1) rest {st2 with stack := st2.stack.dropLast}
              traversal_parent generator_func on_unknown))

/-- `encode_object`: `values = obj.bson_encode()`, inject the class
marker, encode as a document with the instance as the traversal parent. -/
def encode_object (fuel : Nat) (name : List Nat) (state : PyDict) (st : EncSt)
    (generator_func : Option GenFunc) (on_unknown : Option OnUnknown) :
    EncSt × Except Err (List Nat) :=
  match fuel with
  | 0 => (st, .error .fuelOut)
  | fuel + 1 =>
    let values := pyInsert state CLASSNAME_KEY (.str name)
    encode_document fuel values st (.obj name state) generator_func on_unknown

def encode_document_element (fuel : Nat) (name : PyKey) (value : PyDict) (st : EncSt)
    (generator_func : Option GenFunc) (on_unknown : Option OnUnknown) :
    EncSt × Except Err (List Nat) :=
  match fuel with
  | 0 => (st, .error .fuelOut)
  | fuel + 1 =>
    cstep (encode_cstring name) st fun cs =>
      stMap (fun bs => 0x03 :: cs ++ bs)
        (encode_document fuel value st .null generator_func on_unknown)

def encode_array_element (fuel : Nat) (name : PyKey) (value : List Value) (st : EncSt)
    (generator_func : Option GenFunc) (on_unknown : Option OnUnknown) :
    EncSt × Except Err (List Nat) :=
  match fuel with
  | 0 => (st, .error .fuelOut)
  | fuel + 1 =>
    cstep (encode_cstring name) st fun cs =>
      stMap (fun bs => 0x04 :: cs ++ bs)
        (encode_array fuel value st .null generator_func on_unknown)

def encode_object_element (fuel : Nat) (name : PyKey) (objName : List Nat) (state : PyDict)
    (st : EncSt) (generator_func : Option GenFunc) (on_unknown : Option OnUnknown) :
    EncSt × Except Err (List Nat) :=
  match fuel with
  | 0 => (st, .error .fuelOut)
  | fuel + 1 =>
    cstep (encode_cstring name) st fun cs =>
      stMap (fun bs => 0x03 :: cs ++ bs)
        (encode_object fuel objName state st generator_func on_unknown)

end

/-! Unfolding equations for the encoder family, proved by `rfl` (the
automatically generated equation lemmas are too large for this mutual
block, so the proofs below rewrite with these instead). -/

/-- `dumps`: entry point.  `BSONCoding` instances go through
`encode_object`, mappings through `encode_document`; anything else hits
`obj.keys()` and raises `AttributeError`.  The traversal stack starts
empty. -/
def dumps (fuel : Nat) (obj : Value) (generator : Option GenFunc)
    (on_unknown : Option OnUnknown) : EncSt × Except Err (List Nat) :=
  match obj with
  | .obj n s => encode_object fuel n s ⟨[], []⟩ generator on_unknown
  | .doc kvs => encode_document fuel kvs ⟨[], []⟩ .null generator on_unknown
  | _ => (⟨[], []⟩, .error .attributeError)

/-! ## Decoder (`decode_document` and friends) -/

/-- `decode_object`: look the class marker up in the registry
(`MissingClassDefinition` on a miss), build an instance without running
its constructor, run `bson_init` on the full decoded mapping, and return
`alt_retval or retval`. -/
def decode_object (classes : Classes) (raw_values : PyDict) : Except Err Value :=
  match pyDictGet raw_values CLASSNAME_KEY with
  | none => .error (.keyError CLASSNAME_KEY)
  | some class_name =>
    match lookupClass classes class_name with
    | none => .error (.missingClassDefinition class_name)
    | some (n, cls) =>
        .ok (pyOr (cls.bson_init raw_values).1 (.obj n (cls.bson_init raw_values).2))

/-- `decode_binary_subtype`: subtypes 3 and 4 are UUIDs (requiring
exactly 16 bytes), anything else is returned as raw bytes. -/
def decode_binary_subtype (value : List Nat) (binary_subtype : Int) : Except Err Value :=
  if binary_subtype = 3 ∨ binary_subtype = 4 then
    if value.length = 16 then .ok (.uuid value) else .error .uuidValueError
  else .ok (.bin value)

/-- The final step of `decode_document` (its lines 346-349): a decoded
mapping carrying the class marker is handed to `decode_object`, anything
else is returned as-is. -/
def finish_document (classes : Classes) (retval : PyDict ⊕ List Value) : Except Err Value :=
  match retval with
  | .inr xs => .ok (.arr xs)
  | .inl kvs =>
      if (pyDictGet kvs CLASSNAME_KEY).isSome then decode_object classes kvs
      else .ok (.doc kvs)

mutual

/-- `decode_document`: read the length prefix, verify the final byte of
the claimed span is NUL (`MalformedDocument` otherwise), loop over the
elements, then dispatch on the class marker.  Returns the new cursor
(`end_point`) and the decoded value. -/
def decode_document (fuel : Nat) (classes : Classes) (data : List Nat) (base : Int)
    (as_array : Bool) : Except Err (Int × Value) :=
  match fuel with
  | 0 => .error .fuelOut
  | fuel + 1 =>
    let lenB := pySlice data base (base + 4)
    if lenB.length = 4 then
      let length := sgn32 lenB
      let end_point := base + length
      match pyIndexGet data (end_point - 1) with
      | none => .error .indexError
      | some b =>
        if b ≠ 0 then .error .malformedDocument
        else
          match decode_elems fuel classes data end_point (base + 4)
              (if as_array then .inr [] else .inl []) with
          | .error e => .error e
          | .ok retval =>
              match finish_document classes retval with
              | .error e => .error e
              | .ok v => .ok (end_point, v)
    else .error .structError

/-- The `while base < end_point - 1` element loop of `decode_document`:
read the tag byte, scan to the name's NUL terminator, decode the name
(UTF-8 with raw-bytes fallback; skipped for arrays), decode the payload,
accumulate. -/
def decode_elems (fuel : Nat) (classes : Classes) (data : List Nat) (end_point : Int)
    (base : Int) (retval : PyDict ⊕ List Value) : Except Err (PyDict ⊕ List Value) :=
  match fuel with
  | 0 => .error .fuelOut
  | fuel + 1 =>
    if base < end_point - 1 then
      let tagB := pySlice data base (base + 1)
      if tagB.length = 1 then
        let element_type := sgn8 tagB
        match pyFind data (base + 1) with
        | none => .error .valueNotFound
        | some zeroPos =>
          match decode_value fuel classes data ((zeroPos : Int) + 1) element_type with
          | .error e => .error e
          | .ok (base2, value) =>
              decode_elems fuel classes data end_point base2
                (match retval with
                 | .inr xs => .inr (xs ++ [value])
                 | .inl kvs =>
                     .inl (pyInsert kvs
                       (match utf8Decode (pySlice data (base + 1) ((zeroPos : Int) + 1 - 1)) with
                        | some s => .str s
                        | none => .bytes (pySlice data (base + 1) ((zeroPos : Int) + 1 - 1)))
                       value))
      else .error .structError
    else .ok retval

/-- The per-tag payload decoding of `decode_document` (its
`if element_type == ...` chain).  The `0x09` branch models
`datetime.fromtimestamp(ms / 1000.0, utc)` by the exact integer
floor-division `ms.fdiv 1000` and remainder `ms.fmod 1000` (scaled to
microseconds).  This coincides with the source's float computation for
`|ms| < 2^41` — the range produced by encoding any `supported`
datetime: there `fl(ms/1000)` errs by at most `2^-22`, which neither
crosses an integer boundary (ms ≡ 0 mod 1000 divides exactly) nor
moves `round(frac * 1e6)` off the integer `(ms mod 1000) * 1000`
(deviation < 0.48), and `fromtimestamp`'s microsecond re-adjustment
branch is not triggered.  For larger `|ms|` the branch is an
idealization of the float code and no theorem relies on it. -/
def decode_value (fuel : Nat) (classes : Classes) (data : List Nat) (base : Int)
    (element_type : Int) : Except Err (Int × Value) :=
  match fuel with
  | 0 => .error .fuelOut
  | fuel + 1 =>
    if element_type = 0x01 then
      let bs := pySlice data base (base + 8)
      if bs.length = 8 then .ok (base + 8, .double (fromLE bs)) else .error .structError
    else if element_type = 0x02 then
      let lb := pySlice data base (base + 4)
      if lb.length = 4 then
        let length := sgn32 lb
        let valueB := pySlice data (base + 4) (base + 4 + length - 1)
        match utf8Decode valueB with
        | some s => .ok (base + 4 + length, .str s)
        | none => .error .invalidUtf8
      else .error .structError
    else if element_type = 0x03 then
      decode_document fuel classes data base false
    else if element_type = 0x04 then
      decode_document fuel classes data base true
    else if element_type = 0x05 then
      let hb := pySlice data base (base + 5)
      if hb.length = 5 then
        let length := sgn32 (hb.take 4)
        match decode_binary_subtype (pySlice data (base + 5) (base + 5 + length))
            (sgn8 (hb.drop 4)) with
        | .error e => .error e
        | .ok v => .ok (base + 5 + length, v)
      else .error .structError
    else if element_type = 0x07 then
      .ok (base + 12, .bin (hexBytes (pySlice data base (base + 12))))
    else if element_type = 0x08 then
      let bs := pySlice data base (base + 1)
      if bs.length = 1 then .ok (base + 1, .bool (decide (sgn8 bs ≠ 0)))
      else .error .structError
    else if element_type = 0x09 then
      let bs := pySlice data base (base + 8)
      if bs.length = 8 then
        let ms := sgn64 bs
        .ok (base + 8, .dt (ms.fdiv 1000) ((ms.fmod 1000).toNat * 1000) true)
      else .error .structError
    else if element_type = 0x0A then
      .ok (base, .null)
    else if element_type = 0x10 then
      let bs := pySlice data base (base + 4)
      if bs.length = 4 then .ok (base + 4, .int (sgn32 bs)) else .error .structError
    else if element_type = 0x11 then
      let bs := pySlice data base (base + 8)
      if bs.length = 8 then .ok (base + 8, .int (fromLE bs)) else .error .structError
    else if element_type = 0x12 then
      let bs := pySlice data base (base + 8)
      if bs.length = 8 then .ok (base + 8, .int (sgn64 bs)) else .error .structError
    else .error (.unknownElementType element_type)

end

/-- `loads`: decode a whole buffer from position 0. -/
def loads (fuel : Nat) (classes : Classes) (data : List Nat) : Except Err Value :=
  (decode_document fuel classes data 0 false).map Prod.snd

/-! ## Round-trip support: the supported fragment and the documented
narrowing

`supported` carves out the values the round-trip claim quantifies over:
the supported scalar and container types (booleans, plain ints, floats,
strings, byte strings, 16-byte UUIDs, timezone-aware datetimes with a
valid microsecond field, `None`, documents with distinct plain-string
keys none of which is the class marker, arrays).  Wrapper types,
`BSONCoding` instances and unserializable objects are excluded.
Datetimes are further restricted to `|secs| ≤ 2^31 - 1` (epoch seconds
within ± ~68 years of 1970, covering all 32-bit Unix timestamps): on
this range `|ms| < 2^41` and the exact-rational datetime model used in
the encoder and decoder provably coincides with the binary64 float
arithmetic of the source (see the doc comments on
`encode_utc_datetime_element` and `decode_value`); beyond it the float
code starts to diverge from the exact model, so the round-trip theorem
does not speak about such datetimes.
`narrow` is the value the codec documents coming back: `Decimal`
collapses to the double's bit pattern, and a datetime comes back as the
round-half-even millisecond count re-split into seconds and
microseconds by floor-division and positive remainder (everything else
is mapped structurally). -/

mutual

def supported : Value → Bool
  | .bool _ => true
  | .int _ => true
  | .i32 _ => false
  | .i64 _ => false
  | .u64 _ => false
  | .double bits => decide (bits < 18446744073709551616)
  | .decimal bits => decide (bits < 18446744073709551616)
  | .str _ => true
  | .bin _ => true
  | .uuid b => decide (b.length = 16)
  | .dt secs usec tz =>
      tz && decide (usec < 1000000) &&
      decide (-2147483647 ≤ secs ∧ secs ≤ 2147483647)
  | .null => true
  | .doc kvs => supportedKVs kvs && decide ((kvs.map Prod.fst).Nodup)
  | .arr xs => supportedList xs
  | .obj _ _ => false
  | .unknown _ => false

def supportedKVs : PyDict → Bool
  | [] => true
  | (k, v) :: rest =>
      (match k with | .str _ => true | .bytes _ => false) &&
      decide (k ≠ CLASSNAME_KEY) && supported v && supportedKVs rest

def supportedList : List Value → Bool
  | [] => true
  | v :: rest => supported v && supportedList rest

end

mutual

def narrow : Value → Value
  | .bool b => .bool b
  | .int i => .int i
  | .i32 i => .i32 i
  | .i64 i => .i64 i
  | .u64 i => .u64 i
  | .double bits => .double bits
  | .decimal bits => .double bits
  | .str s => .str s
  | .bin b => .bin b
  | .uuid b => .uuid b
  | .dt secs usec _ =>
      .dt ((secs * 1000 + (rheDiv usec 1000 : Int)).fdiv 1000)
        (((secs * 1000 + (rheDiv usec 1000 : Int)).fmod 1000).toNat * 1000) true
  | .null => .null
  | .doc kvs => .doc (narrowKVs kvs)
  | .arr xs => .arr (narrowList xs)
  | .obj n s => .obj n s
  | .unknown u => .unknown u

def narrowKVs : PyDict → PyDict
  | [] => []
  | (k, v) :: rest => (k, narrow v) :: narrowKVs rest

def narrowList : List Value → List Value
  | [] => []
  | v :: rest => narrow v :: narrowList rest

end

/-- The mapping `decode_elems` accumulates for a document: for each key in
encode order, look its value up and `pyInsert` the narrowed value. -/
def decAccD (obj : PyDict) : List PyKey → PyDict → PyDict
  | [], acc => acc
  | k :: rest, acc =>
      match pyDictGet obj k with
      | none => decAccD obj rest acc
      | some v => decAccD obj rest (pyInsert acc k (narrow v))

/-- Value shapes whose dispatch branch cannot fail before reaching
`encode_cstring`: everything except integers beyond the unsigned 64-bit
range (rejected with `IntegerOverflow` first), explicit `Int32` wrappers
out of 32-bit range (`encode_int32_element` packs the value before the
name) and unserializable objects (rejected before any element encoder
runs). -/
def c5_value_shape : Value → Prop
  | .int i => i ≤ 18446744073709551615
  | .i32 i => -2147483648 ≤ i ∧ i < 2147483648
  | .unknown _ => False
  | _ => True

/-! ## Ancestor chains of the traversal stack

`DAnc onu tp obj fr tgt` says: starting from a call
`encode_document _ obj _ tp _ _`, a (possibly nested) document encode on
container `tgt` can be reached, and `fr` is the chain of
`TraversalStep` frames — one `(parent container or instance, key)` pair
per ancestor, exactly as `encode_document`/`encode_array` push them —
leading from `obj` down to `tgt`.  `AAnc` is the same from an array
call, `VAnc` from a value dispatch.  Children of document and array
elements restart with `traversal_parent = None`, and a `BSONCoding`

instance encodes its marker-augmented state dict with the instance as
the traversal parent, mirroring the source call sites. -/

mutual

inductive DAnc : Option OnUnknown → Value → PyDict → List TraversalStep → PyDict → Prop where
  | here (onu : Option OnUnknown) (tp : Value) (obj : PyDict) : DAnc onu tp obj [] obj
  | step (onu : Option OnUnknown) (tp : Value) (obj : PyDict) (k : PyKey) (v : Value)
      (fr : List TraversalStep) (tgt : PyDict) :
      pyDictGet obj k = some v → VAnc onu v fr tgt →
      DAnc onu tp obj (⟨pyOr tp (.doc obj), .key k⟩ :: fr) tgt

inductive AAnc : Option OnUnknown → Value → List Value → List TraversalStep → PyDict → Prop where
  | step (onu : Option OnUnknown) (tp : Value) (xs : List Value) (i : Nat) (v : Value)
      (fr : List TraversalStep) (tgt : PyDict) :
      xs.get? i = some v → VAnc onu v fr tgt →
      AAnc onu tp xs (⟨pyOr tp (.arr xs), .idx i⟩ :: fr) tgt

inductive VAnc : Option OnUnknown → Value → List TraversalStep → PyDict → Prop where
  | doc (onu : Option OnUnknown) (kvs : PyDict) (fr : List TraversalStep) (tgt : PyDict) :
      DAnc onu .null kvs fr tgt → VAnc onu (.doc kvs) fr tgt
  | arr (onu : Option OnUnknown) (xs : List Value) (fr : List TraversalStep) (tgt : PyDict) :
      AAnc onu .null xs fr tgt → VAnc onu (.arr xs) fr tgt
  | obj (onu : Option OnUnknown) (n : List Nat) (s : PyDict) (fr : List TraversalStep)
      (tgt : PyDict) :
      DAnc onu (.obj n s) (pyInsert s CLASSNAME_KEY (.str n)) fr tgt →
      VAnc onu (.obj n s) fr tgt
  | unk (h : OnUnknown) (u : Nat) (fr : List TraversalStep) (tgt : PyDict) :
      VAnc (some h) (h u) fr tgt → VAnc (some h) (.unknown u) fr tgt

end

/-! Helper lemmas about the encoders for the name-rejection claim. -/

/-! ## Theorems -/

theorem leBytes_length (k n : Nat) : (leBytes k n).length = k := by
  induction k generalizing n with
  | zero => rfl
  | succ k ih => simp [leBytes, ih]

theorem fromLE_leBytes (k n : Nat) (h : n < 256 ^ k) : fromLE (leBytes k n) = n := by
  induction k generalizing n with
  | zero => simp at h; simp [h, leBytes, fromLE]
  | succ k ih =>
      have h2 : n / 256 < 256 ^ k := by
        rw [Nat.div_lt_iff_lt_mul (by norm_num)]
        calc n < 256 ^ (k + 1) := h
        _ = 256 ^ k * 256 := by ring
      simp [leBytes, fromLE, ih _ h2]
      omega

theorem sgn32_packInt32 (i : Int) (bs : List Nat) (h : packInt32 i = some bs) :
    sgn32 bs = i := by
  unfold packInt32 at h
  split at h
  · rename_i hr
    have he : i % 4294967296 = if 0 ≤ i then i else i + 4294967296 := by
      split <;> omega
    cases h
    simp only [sgn32, sgnOf]
    rw [fromLE_leBytes 4 _ (by split at he <;> omega)]
    split at he <;> (rename_i hs; rw [he]) <;> simp <;> omega
  · exact absurd h (by simp)

theorem sgn64_packInt64 (i : Int) (bs : List Nat) (h : packInt64 i = some bs) :
    sgn64 bs = i := by
  unfold packInt64 at h
  split at h
  · rename_i hr
    have he : i % 18446744073709551616 = if 0 ≤ i then i else i + 18446744073709551616 := by
      split <;> omega
    cases h
    simp only [sgn64, sgnOf]
    rw [fromLE_leBytes 8 _ (by split at he <;> omega)]
    split at he <;> (rename_i hs; rw [he]) <;> simp <;> omega
  · exact absurd h (by simp)

theorem fromLE_packUInt64 (i : Int) (bs : List Nat) (h : packUInt64 i = some bs) :
    (fromLE bs : Int) = i := by
  unfold packUInt64 at h
  split at h
  · rename_i hr
    cases h
    rw [fromLE_leBytes 8 _ (by omega)]
    omega
  · exact absurd h (by simp)

theorem packInt32_length (i : Int) (bs : List Nat) (h : packInt32 i = some bs) :
    bs.length = 4 := by
  unfold packInt32 at h
  split at h
  · cases h; exact leBytes_length 4 _
  · exact absurd h (by simp)

theorem packInt64_length (i : Int) (bs : List Nat) (h : packInt64 i = some bs) :
    bs.length = 8 := by
  unfold packInt64 at h
  split at h
  · cases h; exact leBytes_length 8 _
  · exact absurd h (by simp)

theorem packUInt64_length (i : Int) (bs : List Nat) (h : packUInt64 i = some bs) :
    bs.length = 8 := by
  unfold packUInt64 at h
  split at h
  · cases h; exact leBytes_length 8 _
  · exact absurd h (by simp)

/-! ## Python sequence semantics: slicing, indexing, substring search -/

theorem sliceAdj_coe (len n : Nat) (h : n ≤ len) : sliceAdj len (n : Int) = n := by
  simp [sliceAdj, h]

theorem pySlice_nat (data : List Nat) (a b : Nat) (ha : a ≤ data.length)
    (hb : b ≤ data.length) :
    pySlice data (a : Int) (b : Int) = (data.take b).drop a := by
  simp [pySlice, sliceAdj_coe _ _ ha, sliceAdj_coe _ _ hb]

/-- Slicing out the middle segment of a concatenation. -/
theorem pySlice_middle (pre mid post : List Nat) :
    pySlice (pre ++ mid ++ post) (pre.length : Int)
      ((pre.length : Int) + (mid.length : Int)) = mid := by
  have h1 : (pre.length : Int) + (mid.length : Int) = ((pre.length + mid.length : Nat) : Int) := by
    push_cast; ring
  rw [h1, pySlice_nat _ _ _ (by simp) (by simp [Nat.le_add_right])]
  rw [List.append_assoc, List.take_append_eq_append_take]
  simp [List.take_append_eq_append_take, List.drop_append_eq_append_drop]

/-! ## UTF-8 (Python `str.encode("utf-8")` / `bytes.decode("utf-8")`, strict mode) -/

theorem utf8DecodeChar_shorter (bs : List Nat) (c : Nat) (r : List Nat)
    (h : utf8DecodeChar bs = some (c, r)) : r.length < bs.length := by
  match bs with
  | [] => exact absurd h (by simp [utf8DecodeChar])
  | b0 :: rest =>
      simp only [utf8DecodeChar] at h
      split_ifs at h <;>
        first
          | (cases h; simp)
          | (split at h <;> (simp_all; try omega))

theorem utf8DecodeChar_encodeChar (c : Nat) (eb rest : List Nat)
    (h : utf8EncodeChar c = some eb) :
    utf8DecodeChar (eb ++ rest) = some (c, rest) := by
  unfold utf8EncodeChar at h
  by_cases h1 : c < 0x80
  · simp only [h1, if_pos] at h
    cases h
    simp [utf8DecodeChar, h1]
  · by_cases h2 : c < 0x800
    · simp only [h1, h2, if_neg, if_pos, reduceIte] at h
      cases h
      show utf8DecodeChar ((0xC0 + c / 64) :: (0x80 + c % 64) :: rest) = some (c, rest)
      simp only [utf8DecodeChar]
      rw [if_neg (by omega), if_pos (by omega)]
      simp only [utf8Cont]
      rw [if_pos (by simp; omega)]
      congr 2
      omega
    · by_cases h3 : c < 0x10000
      · by_cases hs : 0xD800 ≤ c ∧ c ≤ 0xDFFF
        · simp [h1, h2, h3, hs] at h
        · simp only [h1, h2, h3, hs, reduceIte, if_neg, if_pos] at h
          cases h
          show utf8DecodeChar ((0xE0 + c / 4096) :: (0x80 + c / 64 % 64) :: (0x80 + c % 64) ::
            rest) = some (c, rest)
          simp only [utf8DecodeChar]
          rw [if_neg (by omega), if_neg (by omega), if_pos (by omega)]
          have hcond : (if 0xE0 + c / 4096 = 0xE0 then
                decide (0xA0 ≤ 0x80 + c / 64 % 64 ∧ 0x80 + c / 64 % 64 ≤ 0xBF)
              else if 0xE0 + c / 4096 = 0xED then
                decide (0x80 ≤ 0x80 + c / 64 % 64 ∧ 0x80 + c / 64 % 64 ≤ 0x9F)
              else utf8Cont (0x80 + c / 64 % 64)) = true := by
            by_cases he0 : 0xE0 + c / 4096 = 0xE0
            · rw [if_pos he0]
              simp
              omega
            · rw [if_neg he0]
              by_cases hed : 0xE0 + c / 4096 = 0xED
              · rw [if_pos hed]
                have hc1 : c ≤ 0xD7FF := by omega
                have hc0 : 0xD000 ≤ c := by omega
                simp
                omega
              · rw [if_neg hed]
                simp [utf8Cont]
                omega
          rw [hcond]
          have hc2 : utf8Cont (0x80 + c % 64) = true := by simp [utf8Cont]; omega
          rw [hc2]
          simp only [Bool.and_self, if_pos]
          congr 2
          omega
      · by_cases h4 : c < 0x110000
        · simp only [h1, h2, h3, h4, reduceIte, if_neg, if_pos] at h
          cases h
          show utf8DecodeChar ((0xF0 + c / 262144) :: (0x80 + c / 4096 % 64) ::
            (0x80 + c / 64 % 64) :: (0x80 + c % 64) :: rest) = some (c, rest)
          simp only [utf8DecodeChar]
          rw [if_neg (by omega), if_neg (by omega), if_neg (by omega), if_pos (by omega)]
          have hcond : (if 0xF0 + c / 262144 = 0xF0 then
                decide (0x90 ≤ 0x80 + c / 4096 % 64 ∧ 0x80 + c / 4096 % 64 ≤ 0xBF)
              else if 0xF0 + c / 262144 = 0xF4 then
                decide (0x80 ≤ 0x80 + c / 4096 % 64 ∧ 0x80 + c / 4096 % 64 ≤ 0x8F)
              else utf8Cont (0x80 + c / 4096 % 64)) = true := by
            by_cases hf0 : 0xF0 + c / 262144 = 0xF0
            · rw [if_pos hf0]
              simp
              omega
            · rw [if_neg hf0]
              by_cases hf4 : 0xF0 + c / 262144 = 0xF4
              · rw [if_pos hf4]
                have hc0 : 0x100000 ≤ c := by omega
                simp
                omega
              · rw [if_neg hf4]
                simp [utf8Cont]
                omega
          rw [hcond]
          have hc2 : utf8Cont (0x80 + c / 64 % 64) = true := by simp [utf8Cont]; omega
          have hc3 : utf8Cont (0x80 + c % 64) = true := by simp [utf8Cont]; omega
          rw [hc2, hc3]
          simp only [Bool.and_self, if_pos]
          congr 2
          omega
        · simp [h1, h2, h3, h4] at h

theorem utf8EncodeChar_ne_nil (c : Nat) (eb : List Nat) (h : utf8EncodeChar c = some eb) :
    eb ≠ [] := by
  unfold utf8EncodeChar at h
  split_ifs at h <;> (cases h; simp)

theorem utf8DecodeF_utf8Encode (s : List Nat) : ∀ (bs : List Nat) (f : Nat),
    utf8Encode s = some bs → bs.length ≤ f → utf8DecodeF f bs = some s := by
  induction s with
  | nil =>
      intro bs f h _
      simp [utf8Encode] at h
      subst h
      cases f <;> rfl
  | cons c cs ih =>
      intro bs f h hf
      simp only [utf8Encode, Option.bind_eq_bind, Option.bind_eq_some] at h
      obtain ⟨eb, heb, rest, hrest, hbs⟩ := h
      injection hbs with hbs
      subst hbs
      have hchar := utf8DecodeChar_encodeChar c eb rest heb
      have hne : eb ≠ [] := utf8EncodeChar_ne_nil c eb heb
      match eb, hne with
      | e0 :: etl, _ =>
          match f with
          | 0 => simp at hf
          | f + 1 =>
              show utf8DecodeF (f + 1) (e0 :: (etl ++ rest)) = some (c :: cs)
              rw [utf8DecodeF]
              have hchar2 : utf8DecodeChar (e0 :: (etl ++ rest)) = some (c, rest) := by
                simpa using hchar
              rw [hchar2]
              have hr : rest.length ≤ f := by
                have := utf8DecodeChar_shorter (e0 :: (etl ++ rest)) c rest hchar2
                simp at this hf ⊢
                omega
              simp [ih rest f hrest hr]

/-- Strict decode inverts encode. -/
theorem utf8Decode_utf8Encode (s bs : List Nat) (h : utf8Encode s = some bs) :
    utf8Decode bs = some s :=
  utf8DecodeF_utf8Encode s bs bs.length h (Nat.le_refl _)

/-! ## Data model

Python values reachable by the codec.  `double` and `decimal` carry the
64-bit IEEE-754 pattern of the Python float: `struct.pack "<d"` /
`struct.unpack "<d"` are mutually inverse on patterns and the codec never
computes with the numeric value, so the pattern is a faithful
representation.  A `Decimal` is represented by the pattern that
`float(value)` produces for it, which is the only way the codec consumes
it.  `dt` is a `datetime`: UTC epoch seconds, microseconds `< 1000000`,
and whether `tzinfo` is set.  `obj` is a `BSONCoding` instance: its class
name (`__class__.__name__`) and the mapping its `bson_encode` returns
(the instance state, since the codec observes instances only through
`bson_encode`).  `unknown` is any value of a shape the dispatcher does not
recognise, identified opaquely.  The wrapper types `Int32`, `Int64`,
`UInt64` come from `zaber_bson.types`, which is not part of the sources;
modelled from the spec (§3 "three integer-width markers"): each carries
its integer, returned by `get_value`. -/

theorem ebind_ok {α β : Type} (x : Except Err α) (f : α → Except Err β) (b : β)
    (h : ebind x f = .ok b) : ∃ a, x = .ok a ∧ f a = .ok b := by
  cases x with
  | error e => exact absurd h (by intro hq; cases hq)
  | ok a => exact ⟨a, rfl, h⟩

theorem oelim_ok {α β : Type} (x : Option α) (e : Err) (f : α → Except Err β) (b : β)
    (h : oelim x e f = .ok b) : ∃ a, x = some a ∧ f a = .ok b := by
  cases x with
  | none => exact absurd h (by intro hq; cases hq)
  | some a => exact ⟨a, rfl, h⟩

theorem stBind_ok (p : EncSt × Except Err (List Nat))
    (k : List Nat → EncSt → EncSt × Except Err (List Nat)) (st' : EncSt) (bs : List Nat)
    (h : stBind p k = (st', .ok bs)) :
    ∃ st2 b1, p = (st2, .ok b1) ∧ k b1 st2 = (st', .ok bs) := by
  obtain ⟨st2, r⟩ := p
  cases r with
  | error e => exact absurd h (by intro hq; cases hq)
  | ok b1 => exact ⟨st2, b1, rfl, h⟩

theorem stMap_ok (f : List Nat → List Nat) (p : EncSt × Except Err (List Nat))
    (st' : EncSt) (bs : List Nat) (h : stMap f p = (st', .ok bs)) :
    ∃ b, p = (st', .ok b) ∧ bs = f b := by
  obtain ⟨st2, r⟩ := p
  cases r with
  | error e => exact absurd h (by intro hq; cases hq)
  | ok b =>
      replace h : (st2, Except.ok (f b)) = (st', Except.ok bs) := h
      cases h
      exact ⟨b, rfl, rfl⟩

theorem pack_with_ok (st1 : EncSt) (e_list : List Nat) (o : Option (List Nat))
    (st' : EncSt) (bs : List Nat) (h : pack_with st1 e_list o = (st', .ok bs)) :
    ∃ l, o = some l ∧ st' = st1 ∧ bs = l ++ e_list ++ [0] := by
  cases o with
  | none => exact absurd h (by intro hq; cases hq)
  | some l =>
      replace h : (st1, Except.ok (l ++ e_list ++ [0])) = (st', Except.ok bs) := h
      cases h
      exact ⟨l, rfl, rfl, rfl⟩

theorem pack_bytes_ok (st1 st' : EncSt) (e_list bs : List Nat)
    (h : pack_bytes st1 e_list = (st', .ok bs)) :
    ∃ l, packInt32 ((e_list.length : Int) + 4 + 1) = some l ∧
      st' = st1 ∧ bs = l ++ e_list ++ [0] :=
  pack_with_ok st1 e_list (packInt32 ((e_list.length : Int) + 4 + 1)) st' bs h

theorem pack_e_list_ok (p : EncSt × Except Err (List Nat)) (st' : EncSt) (bs : List Nat)
    (h : pack_e_list p = (st', .ok bs)) :
    ∃ st1 e_list l, p = (st1, .ok e_list) ∧
      packInt32 ((e_list.length : Int) + 4 + 1) = some l ∧
      st' = st1 ∧ bs = l ++ e_list ++ [0] := by
  obtain ⟨st1, r⟩ := p
  cases r with
  | error e => exact absurd h (by intro hq; cases hq)
  | ok e_list =>
      replace h : pack_bytes st1 e_list = (st', .ok bs) := h
      obtain ⟨l, hp, h1, h2⟩ := pack_bytes_ok st1 st' e_list bs h
      exact ⟨st1, e_list, l, rfl, hp, h1, h2⟩

theorem cstep_ok (x : Except Err (List Nat)) (st : EncSt)
    (k : List Nat → EncSt × Except Err (List Nat)) (st' : EncSt) (bs : List Nat)
    (h : cstep x st k = (st', .ok bs)) : ∃ cs, x = .ok cs ∧ k cs = (st', .ok bs) := by
  cases x with
  | error e => exact absurd h (by intro hq; cases hq)
  | ok cs => exact ⟨cs, rfl, h⟩

theorem olift_ok (x : Option Value) (st : EncSt) (e : Err)
    (k : Value → EncSt × Except Err (List Nat)) (st' : EncSt) (bs : List Nat)
    (h : olift x st e k = (st', .ok bs)) : ∃ v, x = some v ∧ k v = (st', .ok bs) := by
  cases x with
  | none => exact absurd h (by intro hq; cases hq)
  | some v => exact ⟨v, rfl, h⟩

theorem encode_value_zero (name : PyKey) (value : Value) (st : EncSt)
    (g : Option GenFunc) (onu : Option OnUnknown) :
    encode_value 0 name value st g onu = (st, .error .fuelOut) := rfl

theorem encode_value_bool (fuel : Nat) (name : PyKey) (b : Bool) (st : EncSt)
    (g : Option GenFunc) (onu : Option OnUnknown) :
    encode_value (fuel + 1) name (.bool b) st g onu =
      (st, encode_boolean_element name b) := rfl

theorem encode_value_int (fuel : Nat) (name : PyKey) (i : Int) (st : EncSt)
    (g : Option GenFunc) (onu : Option OnUnknown) :
    encode_value (fuel + 1) name (.int i) st g onu =
      (if i < -0x80000000 ∨ (0x7FFFFFFFFFFFFFFF ≥ i ∧ i > 0x7fffffff) then
        (st, encode_int64_element name i)
      else if i > 0x7FFFFFFFFFFFFFFF then
        if i > 0xFFFFFFFFFFFFFFFF then (st, .error .integerOverflow)
        else (st, encode_uint64_element name i)
      else (st, encode_int32_element name i)) := rfl

theorem encode_value_i32 (fuel : Nat) (name : PyKey) (i : Int) (st : EncSt)
    (g : Option GenFunc) (onu : Option OnUnknown) :
    encode_value (fuel + 1) name (.i32 i) st g onu =
      (st, encode_int32_element name i) := rfl

theorem encode_value_i64 (fuel : Nat) (name : PyKey) (i : Int) (st : EncSt)
    (g : Option GenFunc) (onu : Option OnUnknown) :
    encode_value (fuel + 1) name (.i64 i) st g onu =
      (st, encode_int64_element name i) := rfl

theorem encode_value_u64 (fuel : Nat) (name : PyKey) (i : Int) (st : EncSt)
    (g : Option GenFunc) (onu : Option OnUnknown) :
    encode_value (fuel + 1) name (.u64 i) st g onu =
      (st, encode_uint64_element name i) := rfl

theorem encode_value_double (fuel : Nat) (name : PyKey) (bits : Nat) (st : EncSt)
    (g : Option GenFunc) (onu : Option OnUnknown) :
    encode_value (fuel + 1) name (.double bits) st g onu =
      (st, encode_double_element name bits) := rfl

theorem encode_value_decimal (fuel : Nat) (name : PyKey) (bits : Nat) (st : EncSt)
    (g : Option GenFunc) (onu : Option OnUnknown) :
    encode_value (fuel + 1) name (.decimal bits) st g onu =
      (st, encode_double_element name bits) := rfl

theorem encode_value_str (fuel : Nat) (name : PyKey) (s : List Nat) (st : EncSt)
    (g : Option GenFunc) (onu : Option OnUnknown) :
    encode_value (fuel + 1) name (.str s) st g onu =
      (st, encode_string_element name s) := rfl

theorem encode_value_bin (fuel : Nat) (name : PyKey) (b : List Nat) (st : EncSt)
    (g : Option GenFunc) (onu : Option OnUnknown) :
    encode_value (fuel + 1) name (.bin b) st g onu =
      (st, encode_binary_element name b 0) := rfl

theorem encode_value_uuid (fuel : Nat) (name : PyKey) (b : List Nat) (st : EncSt)
    (g : Option GenFunc) (onu : Option OnUnknown) :
    encode_value (fuel + 1) name (.uuid b) st g onu =
      (st, encode_binary_element name b 4) := rfl

theorem encode_value_dt (fuel : Nat) (name : PyKey) (secs : Int) (usec : Nat) (tz : Bool)
    (st : EncSt) (g : Option GenFunc) (onu : Option OnUnknown) :
    encode_value (fuel + 1) name (.dt secs usec tz) st g onu =
      (st, encode_utc_datetime_element name secs usec tz) := rfl

theorem encode_value_null (fuel : Nat) (name : PyKey) (st : EncSt)
    (g : Option GenFunc) (onu : Option OnUnknown) :
    encode_value (fuel + 1) name .null st g onu =
      (st, encode_none_element name) := rfl

theorem encode_value_doc (fuel : Nat) (name : PyKey) (kvs : PyDict) (st : EncSt)
    (g : Option GenFunc) (onu : Option OnUnknown) :
    encode_value (fuel + 1) name (.doc kvs) st g onu =
      encode_document_element fuel name kvs st g onu := rfl

theorem encode_value_arr (fuel : Nat) (name : PyKey) (xs : List Value) (st : EncSt)
    (g : Option GenFunc) (onu : Option OnUnknown) :
    encode_value (fuel + 1) name (.arr xs) st g onu =
      encode_array_element fuel name xs st g onu := rfl

theorem encode_value_obj (fuel : Nat) (name : PyKey) (n : List Nat) (s : PyDict)
    (st : EncSt) (g : Option GenFunc) (onu : Option OnUnknown) :
    encode_value (fuel + 1) name (.obj n s) st g onu =
      encode_object_element fuel name n s st g onu := rfl

theorem encode_value_unknown (fuel : Nat) (name : PyKey) (u : Nat) (st : EncSt)
    (g : Option GenFunc) (onu : Option OnUnknown) :
    encode_value (fuel + 1) name (.unknown u) st g onu =
      (match onu with
       | some h => encode_value fuel name (h u) st g (some h)
       | none => (st, .error (.unknownSerializer name (.unknown u)))) := rfl

theorem encode_document_zero (obj : PyDict) (st : EncSt) (tp : Value)
    (g : Option GenFunc) (onu : Option OnUnknown) :
    encode_document 0 obj st tp g onu = (st, .error .fuelOut) := rfl

theorem encode_document_unfold_none (fuel : Nat) (obj : PyDict) (st : EncSt) (tp : Value)
    (onu : Option OnUnknown) :
    encode_document (fuel + 1) obj st tp none onu =
      pack_e_list (encode_elems fuel obj (obj.map Prod.fst) st tp none onu) := rfl

theorem encode_document_unfold_some (fuel : Nat) (obj : PyDict) (st : EncSt) (tp : Value)
    (gf : GenFunc) (onu : Option OnUnknown) :
    encode_document (fuel + 1) obj st tp (some gf) onu =
      pack_e_list (encode_elems fuel obj (gf obj st.stack)
        {st with calls := st.calls ++ [(obj, st.stack)]} tp (some gf) onu) := rfl

theorem encode_elems_zero (obj : PyDict) (keys : List PyKey) (st : EncSt) (tp : Value)
    (g : Option GenFunc) (onu : Option OnUnknown) :
    encode_elems 0 obj keys st tp g onu = (st, .error .fuelOut) := rfl

theorem encode_elems_nil (fuel : Nat) (obj : PyDict) (st : EncSt) (tp : Value)
    (g : Option GenFunc) (onu : Option OnUnknown) :
    encode_elems (fuel + 1) obj [] st tp g onu = (st, .ok []) := rfl

theorem encode_elems_cons (fuel : Nat) (obj : PyDict) (name : PyKey) (rest : List PyKey)
    (st : EncSt) (tp : Value) (g : Option GenFunc) (onu : Option OnUnknown) :
    encode_elems (fuel + 1) obj (name :: rest) st tp g onu =
    (olift (pyDictGet obj name) st (.keyError name) fun value =>
      stBind (encode_value fuel name value
          {st with stack := st.stack ++ [⟨pyOr tp (.doc obj), .key name⟩]} g onu)
        (fun bs st2 =>
          stMap (fun bs2 => bs ++ bs2)
            (encode_elems fuel obj rest {st2 with stack := st2.stack.dropLast}
              tp g onu))) := rfl

theorem encode_array_zero (xs : List Value) (st : EncSt) (tp : Value)
    (g : Option GenFunc) (onu : Option OnUnknown) :
    encode_array 0 xs st tp g onu = (st, .error .fuelOut) := rfl

theorem encode_array_unfold (fuel : Nat) (xs : List Value) (st : EncSt) (tp : Value)
    (g : Option GenFunc) (onu : Option OnUnknown) :
    encode_array (fuel + 1) xs st tp g onu =
      pack_e_list (encode_arr_elems fuel xs 0 xs st tp g onu) := rfl

theorem encode_arr_elems_zero (array : List Value) (i : Nat) (items : List Value)
    (st : EncSt) (tp : Value) (g : Option GenFunc) (onu : Option OnUnknown) :
    encode_arr_elems 0 array i items st tp g onu = (st, .error .fuelOut) := rfl

theorem encode_arr_elems_nil (fuel : Nat) (array : List Value) (i : Nat) (st : EncSt)
    (tp : Value) (g : Option GenFunc) (onu : Option OnUnknown) :
    encode_arr_elems (fuel + 1) array i [] st tp g onu = (st, .ok []) := rfl

theorem encode_arr_elems_cons (fuel : Nat) (array : List Value) (i : Nat) (value : Value)
    (rest : List Value) (st : EncSt) (tp : Value) (g : Option GenFunc)
    (onu : Option OnUnknown) :
    encode_arr_elems (fuel + 1) array i (value :: rest) st tp g onu =
      stBind (encode_value fuel (.str (natToDecStr i)) value
          {st with stack := st.stack ++ [⟨pyOr tp (.arr array), .idx i⟩]} g onu)
        (fun bs st2 =>
          stMap (fun bs2 => bs ++ bs2)
            (encode_arr_elems fuel array (i + 1) rest {st2 with stack := st2.stack.dropLast}
              tp g onu)) := rfl

theorem encode_object_zero (name : List Nat) (state : PyDict) (st : EncSt)
    (g : Option GenFunc) (onu : Option OnUnknown) :
    encode_object 0 name state st g onu = (st, .error .fuelOut) := rfl

theorem encode_object_unfold (fuel : Nat) (name : List Nat) (state : PyDict) (st : EncSt)
    (g : Option GenFunc) (onu : Option OnUnknown) :
    encode_object (fuel + 1) name state st g onu =
      encode_document fuel (pyInsert state CLASSNAME_KEY (.str name)) st
        (.obj name state) g onu := rfl

theorem encode_document_element_zero (name : PyKey) (value : PyDict) (st : EncSt)
    (g : Option GenFunc) (onu : Option OnUnknown) :
    encode_document_element 0 name value st g onu = (st, .error .fuelOut) := rfl

theorem encode_document_element_unfold (fuel : Nat) (name : PyKey) (value : PyDict)
    (st : EncSt) (g : Option GenFunc) (onu : Option OnUnknown) :
    encode_document_element (fuel + 1) name value st g onu =
    (cstep (encode_cstring name) st fun cs =>
      stMap (fun bs => 0x03 :: cs ++ bs)
        (encode_document fuel value st .null g onu)) := rfl

theorem encode_array_element_zero (name : PyKey) (value : List Value) (st : EncSt)
    (g : Option GenFunc) (onu : Option OnUnknown) :
    encode_array_element 0 name value st g onu = (st, .error .fuelOut) := rfl

theorem encode_array_element_unfold (fuel : Nat) (name : PyKey) (value : List Value)
    (st : EncSt) (g : Option GenFunc) (onu : Option OnUnknown) :
    encode_array_element (fuel + 1) name value st g onu =
    (cstep (encode_cstring name) st fun cs =>
      stMap (fun bs => 0x04 :: cs ++ bs)
        (encode_array fuel value st .null g onu)) := rfl

theorem encode_object_element_zero (name : PyKey) (objName : List Nat) (state : PyDict)
    (st : EncSt) (g : Option GenFunc) (onu : Option OnUnknown) :
    encode_object_element 0 name objName state st g onu = (st, .error .fuelOut) := rfl

theorem encode_object_element_unfold (fuel : Nat) (name : PyKey) (objName : List Nat)
    (state : PyDict) (st : EncSt) (g : Option GenFunc) (onu : Option OnUnknown) :
    encode_object_element (fuel + 1) name objName state st g onu =
    (cstep (encode_cstring name) st fun cs =>
      stMap (fun bs => 0x03 :: cs ++ bs)
        (encode_object fuel objName state st g onu)) := rfl

theorem pyInsert_fresh (acc : PyDict) (k : PyKey) (v : Value)
    (h : ∀ kv ∈ acc, k ≠ kv.1) : pyInsert acc k v = acc ++ [(k, v)] := by
  induction acc with
  | nil => rfl
  | cons kv rest ihr =>
      obtain ⟨k2, v2⟩ := kv
      unfold pyInsert
      rw [if_neg, ihr]
      · rfl
      · intro kv2 hkv2
        exact h kv2 (List.mem_cons_of_mem _ hkv2)
      · intro hq
        exact h (k2, v2) (List.mem_cons_self _ _) (hq ▸ rfl)

theorem pyDictGet_self_of_nodup (obj : PyDict) (hnd : (obj.map Prod.fst).Nodup) :
    ∀ kv ∈ obj, pyDictGet obj kv.1 = some kv.2 := by
  induction obj with
  | nil => intro kv hkv; cases hkv
  | cons hd rest ihr =>
      intro kv hkv
      obtain ⟨hk, v0⟩ := hd
      rcases List.mem_cons.mp hkv with heq | hmem
      · subst heq
        unfold pyDictGet
        rw [if_pos rfl]
      · unfold pyDictGet
        rw [List.map_cons, List.nodup_cons] at hnd
        rw [if_neg]
        · exact ihr hnd.2 kv hmem
        · intro hq
          exact hnd.1 (by rw [hq]; exact List.mem_map.mpr ⟨kv, hmem, rfl⟩)

/-- Keys present after a `pyInsert`: an original key or the inserted one. -/
theorem pyInsert_keys : ∀ (acc : PyDict) (k : PyKey) (v : Value) (kv : PyKey × Value),
    kv ∈ pyInsert acc k v → kv.1 ∈ acc.map Prod.fst ∨ kv.1 = k := by
  intro acc
  induction acc with
  | nil =>
      intro k v kv hkv
      rw [show pyInsert [] k v = [(k, v)] from rfl] at hkv
      exact .inr (by rw [List.mem_singleton.mp hkv])
  | cons a arest iha =>
      intro k v kv hkv
      obtain ⟨ak, av⟩ := a
      unfold pyInsert at hkv
      by_cases hak : ak = k
      · rw [if_pos hak] at hkv
        rcases List.mem_cons.mp hkv with h | h
        · exact .inr (by rw [h]; exact hak)
        · exact .inl (by
            rw [List.map_cons]
            exact List.mem_cons_of_mem _ (List.mem_map_of_mem Prod.fst h))
      · rw [if_neg hak] at hkv
        rcases List.mem_cons.mp hkv with h | h
        · exact .inl (by rw [h, List.map_cons]; exact List.mem_cons_self _ _)
        · rcases iha k v kv h with h2 | h2
          · exact .inl (by rw [List.map_cons]; exact List.mem_cons_of_mem _ h2)
          · exact .inr h2

/-- Keys of the accumulated mapping: every key is either an original
accumulator key or one of the processed keys. -/
theorem decAccD_keys (obj : PyDict) : ∀ (keys : List PyKey) (acc : PyDict)
    (kv : PyKey × Value), kv ∈ decAccD obj keys acc →
    kv.1 ∈ acc.map Prod.fst ∨ kv.1 ∈ keys := by
  intro keys
  induction keys with
  | nil => intro acc kv hkv; exact .inl (List.mem_map_of_mem Prod.fst hkv)
  | cons k rest ihr =>
      intro acc kv hkv
      unfold decAccD at hkv
      rcases hg : pyDictGet obj k with _ | v
      · rw [hg] at hkv
        rcases ihr acc kv hkv with h1 | h2
        · exact .inl h1
        · exact .inr (List.mem_cons_of_mem _ h2)
      · rw [hg] at hkv
        rcases ihr (pyInsert acc k (narrow v)) kv hkv with h1 | h2
        · rcases List.mem_map.mp h1 with ⟨kv3, hkv3, hkv3e⟩
          rcases pyInsert_keys acc k (narrow v) kv3 hkv3 with h3 | h3
          · exact .inl (hkv3e ▸ h3)
          · exact .inr (by rw [← hkv3e, h3]; exact List.mem_cons_self _ _)
        · exact .inr (List.mem_cons_of_mem _ h2)

theorem decAccD_cons (obj : PyDict) (k : PyKey) (rest : List PyKey) (acc : PyDict) :
    decAccD obj (k :: rest) acc =
      (match pyDictGet obj k with
       | none => decAccD obj rest acc
       | some v => decAccD obj rest (pyInsert acc k (narrow v))) := rfl

/-- Rebuilding a document with distinct keys: processing the keys of
`rest` (whose bindings are looked up in `obj`) appends the narrowed
bindings to the accumulator. -/
theorem decAcc_append : ∀ (rest : PyDict) (obj : PyDict) (acc : PyDict),
    (∀ kv ∈ rest, pyDictGet obj kv.1 = some kv.2) →
    (∀ kv ∈ rest, ∀ kv2 ∈ acc, kv.1 ≠ kv2.1) →
    ((rest.map Prod.fst).Nodup) →
    decAccD obj (rest.map Prod.fst) acc = acc ++ narrowKVs rest := by
  intro rest
  induction rest with
  | nil =>
      intro obj acc _ _ _
      rw [show narrowKVs [] = [] from rfl, List.append_nil]
      rfl
  | cons kv rest2 ihr =>
      intro obj acc hget hfresh hnd
      obtain ⟨k, v⟩ := kv
      have hg : pyDictGet obj k = some v := hget (k, v) (List.mem_cons_self _ _)
      rw [List.map_cons]
      have hstep : decAccD obj (k :: List.map Prod.fst rest2) acc =
          decAccD obj (List.map Prod.fst rest2) (pyInsert acc k (narrow v)) := by
        rw [decAccD_cons, hg]
      rw [hstep]
      rw [pyInsert_fresh acc k (narrow v)
        (fun kv2 hkv2 => hfresh (k, v) (List.mem_cons_self _ _) kv2 hkv2)]
      rw [List.map_cons, List.nodup_cons] at hnd
      rw [ihr obj (acc ++ [(k, narrow v)])
        (fun kv2 hkv2 => hget kv2 (List.mem_cons_of_mem _ hkv2))
        (fun kv2 hkv2 kv3 hkv3 => by
          rcases List.mem_append.mp hkv3 with h | h
          · exact hfresh kv2 (List.mem_cons_of_mem _ hkv2) kv3 h
          · rw [List.mem_singleton.mp h]
            intro hq
            exact hnd.1 (by
              rw [show k = kv2.1 from hq.symm]
              exact List.mem_map.mpr ⟨kv2, hkv2, rfl⟩))
        hnd.2]
      rw [show narrowKVs ((k, v) :: rest2) = (k, narrow v) :: narrowKVs rest2 from rfl]
      rw [List.append_assoc]
      rfl

/-! ## Positional lemmas about the stream primitives -/

theorem pySlice_seg (data pre mid post : List Nat) (b e : Int)
    (hdata : data = pre ++ mid ++ post) (hb : b = (pre.length : Int))
    (he : e = (pre.length : Int) + (mid.length : Int)) :
    pySlice data b e = mid := by
  subst hdata; subst hb; subst he
  exact pySlice_middle pre mid post

theorem get?_append_len (pre : List Nat) (x : Nat) (post : List Nat) :
    (pre ++ x :: post).get? pre.length = some x := by
  induction pre with
  | nil => rfl
  | cons a rest ih => exact ih

theorem pyIndexGet_seg (data pre post : List Nat) (x : Nat) (i : Int)
    (hdata : data = pre ++ x :: post) (hi : i = (pre.length : Int)) :
    pyIndexGet data i = some x := by
  subst hdata; subst hi
  unfold pyIndexGet
  rw [if_neg (by omega)]
  rw [show ((pre.length : Int)).toNat = pre.length from by omega]
  exact get?_append_len pre x post

theorem findIdx_zero_concat (mid : List Nat) : ∀ (post : List Nat) (i : Nat),
    (∀ x ∈ mid, x ≠ 0) →
    List.findIdx? (fun b => b = 0) (mid ++ 0 :: post) i = some (i + mid.length) := by
  induction mid with
  | nil => intro post i _; rfl
  | cons a rest ih =>
      intro post i h0
      rw [List.cons_append, List.findIdx?_cons]
      rw [if_neg (by simp [h0 a (List.mem_cons_self _ _)])]
      rw [ih post (i + 1) (fun x hx => h0 x (List.mem_cons_of_mem _ hx))]
      rw [show i + 1 + rest.length = i + (rest.length + 1) from by omega, List.length_cons]

theorem pyFind_seg (data pre mid post : List Nat) (s : Int)
    (hdata : data = pre ++ mid ++ 0 :: post) (h0 : ∀ x ∈ mid, x ≠ 0)
    (hs : s = (pre.length : Int)) :
    pyFind data s = some (pre.length + mid.length) := by
  subst hdata; subst hs
  unfold pyFind
  have ha : sliceAdj (pre ++ mid ++ 0 :: post).length ((pre.length : Int)) = pre.length := by
    apply sliceAdj_coe
    simp [List.length_append]
  rw [ha]
  dsimp only
  rw [List.append_assoc, List.drop_left]
  rw [findIdx_zero_concat mid post 0 h0]
  show some (0 + mid.length + pre.length) = some (pre.length + mid.length)
  congr 1
  omega

/-! ## Forward decoding of single payloads

One lemma per element type: decoding the payload the encoder produced,
embedded at an arbitrary position of a larger buffer, yields the narrowed
value and advances the cursor past the payload. -/

theorem decode_seg_bool (df : Nat) (classes : Classes) (pre post : List Nat) (b : Bool) :
    decode_value (df + 1) classes (pre ++ [if b then 1 else 0] ++ post)
      ((pre.length : Int)) 0x08 = .ok ((pre.length : Int) + 1, .bool b) := by
  rw [decode_value]
  norm_num
  have hs : pySlice (pre ++ (if b = true then 1 else 0) :: post) ((pre.length : Int))
      ((pre.length : Int) + 1) = [if b = true then 1 else 0] :=
    pySlice_seg _ pre [if b = true then 1 else 0] post _ _ (by simp) rfl (by norm_num)
  rw [hs]
  cases b <;> rfl

theorem decode_seg_null (df : Nat) (classes : Classes) (data : List Nat) (base : Int) :
    decode_value (df + 1) classes data base 0x0A = .ok (base, .null) := by
  rw [decode_value]
  norm_num

theorem decode_seg_double (df : Nat) (classes : Classes) (pre post : List Nat) (bits : Nat)
    (h : bits < 18446744073709551616) :
    decode_value (df + 1) classes (pre ++ leBytes 8 bits ++ post) ((pre.length : Int)) 0x01 =
      .ok ((pre.length : Int) + 8, .double bits) := by
  rw [decode_value]
  norm_num
  have hs : pySlice (pre ++ (leBytes 8 bits ++ post)) ((pre.length : Int))
      ((pre.length : Int) + 8) = leBytes 8 bits :=
    pySlice_seg _ pre (leBytes 8 bits) post _ _ (by simp) rfl
      (by rw [leBytes_length]; norm_num)
  rw [hs, if_pos (leBytes_length 8 bits)]
  rw [fromLE_leBytes 8 bits (by norm_num; omega)]

theorem decode_seg_int32 (df : Nat) (classes : Classes) (pre post pb : List Nat) (i : Int)
    (h : packInt32 i = some pb) :
    decode_value (df + 1) classes (pre ++ pb ++ post) ((pre.length : Int)) 0x10 =
      .ok ((pre.length : Int) + 4, .int i) := by
  rw [decode_value]
  norm_num
  have hs : pySlice (pre ++ (pb ++ post)) ((pre.length : Int))
      ((pre.length : Int) + 4) = pb :=
    pySlice_seg _ pre pb post _ _ (by simp) rfl (by rw [packInt32_length i pb h]; norm_num)
  rw [hs, if_pos (packInt32_length i pb h), sgn32_packInt32 i pb h]

theorem decode_seg_int64 (df : Nat) (classes : Classes) (pre post pb : List Nat) (i : Int)
    (h : packInt64 i = some pb) :
    decode_value (df + 1) classes (pre ++ pb ++ post) ((pre.length : Int)) 0x12 =
      .ok ((pre.length : Int) + 8, .int i) := by
  rw [decode_value]
  norm_num
  have hs : pySlice (pre ++ (pb ++ post)) ((pre.length : Int))
      ((pre.length : Int) + 8) = pb :=
    pySlice_seg _ pre pb post _ _ (by simp) rfl (by rw [packInt64_length i pb h]; norm_num)
  rw [hs, if_pos (packInt64_length i pb h), sgn64_packInt64 i pb h]

theorem decode_seg_uint64 (df : Nat) (classes : Classes) (pre post pb : List Nat) (i : Int)
    (h : packUInt64 i = some pb) :
    decode_value (df + 1) classes (pre ++ pb ++ post) ((pre.length : Int)) 0x11 =
      .ok ((pre.length : Int) + 8, .int i) := by
  rw [decode_value]
  norm_num
  have hs : pySlice (pre ++ (pb ++ post)) ((pre.length : Int))
      ((pre.length : Int) + 8) = pb :=
    pySlice_seg _ pre pb post _ _ (by simp) rfl (by rw [packUInt64_length i pb h]; norm_num)
  rw [hs, if_pos (packUInt64_length i pb h), fromLE_packUInt64 i pb h]

theorem decode_seg_dt (df : Nat) (classes : Classes) (pre post pb : List Nat) (ms : Int)
    (h : packInt64 ms = some pb) :
    decode_value (df + 1) classes (pre ++ pb ++ post) ((pre.length : Int)) 0x09 =
      .ok ((pre.length : Int) + 8,
        .dt (ms.fdiv 1000) ((ms.fmod 1000).toNat * 1000) true) := by
  rw [decode_value]
  norm_num
  have hs : pySlice (pre ++ (pb ++ post)) ((pre.length : Int))
      ((pre.length : Int) + 8) = pb :=
    pySlice_seg _ pre pb post _ _ (by simp) rfl (by rw [packInt64_length ms pb h]; norm_num)
  rw [hs, if_pos (packInt64_length ms pb h), sgn64_packInt64 ms pb h]

theorem decode_seg_string (df : Nat) (classes : Classes) (pre post lb bv s : List Nat)
    (hp : packInt32 ((bv.length : Int) + 1) = some lb) (he : utf8Encode s = some bv) :
    decode_value (df + 1) classes (pre ++ (lb ++ bv ++ [0]) ++ post) ((pre.length : Int)) 0x02 =
      .ok ((pre.length : Int) + 4 + ((bv.length : Int) + 1), .str s) := by
  rw [decode_value]
  norm_num
  have hl4 := packInt32_length _ lb hp
  have hs1 : pySlice (pre ++ (lb ++ (bv ++ 0 :: post))) ((pre.length : Int))
      ((pre.length : Int) + 4) = lb :=
    pySlice_seg _ pre lb (bv ++ 0 :: post) _ _ (by simp) rfl (by rw [hl4]; norm_num)
  rw [hs1, if_pos hl4, sgn32_packInt32 _ _ hp]
  have hs2 : pySlice (pre ++ (lb ++ (bv ++ 0 :: post))) ((pre.length : Int) + 4)
      ((pre.length : Int) + 4 + ((bv.length : Int) + 1) - 1) = bv :=
    pySlice_seg _ (pre ++ lb) bv (0 :: post) _ _ (by simp)
      (by push_cast [List.length_append, hl4]; ring)
      (by push_cast [List.length_append, hl4]; ring)
  rw [hs2, utf8Decode_utf8Encode s bv he]

theorem decode_seg_binary (df : Nat) (classes : Classes) (pre post lb b : List Nat)
    (hp : packInt32 ((b.length : Int)) = some lb) :
    decode_value (df + 1) classes (pre ++ (lb ++ [0] ++ b) ++ post) ((pre.length : Int)) 0x05 =
      .ok ((pre.length : Int) + 5 + (b.length : Int), .bin b) := by
  rw [decode_value]
  norm_num
  have hl4 := packInt32_length _ lb hp
  have hs1 : pySlice (pre ++ (lb ++ 0 :: (b ++ post))) ((pre.length : Int))
      ((pre.length : Int) + 5) = lb ++ [0] :=
    pySlice_seg _ pre (lb ++ [0]) (b ++ post) _ _ (by simp)
      rfl (by push_cast [List.length_append, hl4, List.length_singleton]; ring)
  rw [hs1]
  rw [if_pos (by simp [hl4])]
  rw [show List.take 4 (lb ++ [0]) = lb from by rw [← hl4]; exact List.take_left lb [0]]
  rw [show List.drop 4 (lb ++ [0]) = [0] from by rw [← hl4]; exact List.drop_left lb [0]]
  rw [sgn32_packInt32 _ _ hp]
  have hs2 : pySlice (pre ++ (lb ++ 0 :: (b ++ post))) ((pre.length : Int) + 5)
      ((pre.length : Int) + 5 + (b.length : Int)) = b :=
    pySlice_seg _ (pre ++ lb ++ [0]) b post _ _ (by simp)
      (by simp [List.length_append, hl4])
      (by simp [List.length_append, hl4])
  rw [hs2]
  rw [show decode_binary_subtype b (sgn8 [0]) = .ok (.bin b) from by
    unfold decode_binary_subtype
    rw [if_neg (by norm_num [sgn8, sgnOf, fromLE])]]

theorem decode_seg_uuid (df : Nat) (classes : Classes) (pre post lb b : List Nat)
    (hp : packInt32 ((b.length : Int)) = some lb) (h16 : b.length = 16) :
    decode_value (df + 1) classes (pre ++ (lb ++ [4] ++ b) ++ post) ((pre.length : Int)) 0x05 =
      .ok ((pre.length : Int) + 5 + (b.length : Int), .uuid b) := by
  rw [decode_value]
  norm_num
  have hl4 := packInt32_length _ lb hp
  have hs1 : pySlice (pre ++ (lb ++ 4 :: (b ++ post))) ((pre.length : Int))
      ((pre.length : Int) + 5) = lb ++ [4] :=
    pySlice_seg _ pre (lb ++ [4]) (b ++ post) _ _ (by simp)
      rfl (by push_cast [List.length_append, hl4, List.length_singleton]; ring)
  rw [hs1]
  rw [if_pos (by simp [hl4])]
  rw [show List.take 4 (lb ++ [4]) = lb from by
    have h2 := List.take_left lb ([4] : List Nat); rwa [hl4] at h2]
  rw [show List.drop 4 (lb ++ [4]) = [4] from by
    have h2 := List.drop_left lb ([4] : List Nat); rwa [hl4] at h2]
  rw [sgn32_packInt32 _ _ hp]
  have hs2 : pySlice (pre ++ (lb ++ 4 :: (b ++ post))) ((pre.length : Int) + 5)
      ((pre.length : Int) + 5 + (b.length : Int)) = b :=
    pySlice_seg _ (pre ++ lb ++ [4]) b post _ _ (by simp)
      (by simp [List.length_append, hl4])
      (by simp [List.length_append, hl4])
  rw [hs2]
  rw [show decode_binary_subtype b (sgn8 [4]) = .ok (.uuid b) from by
    unfold decode_binary_subtype
    rw [if_pos (by norm_num [sgn8, sgnOf, fromLE]), if_pos h16]]

theorem decode_value_doc_disp (df : Nat) (classes : Classes) (data : List Nat) (base : Int) :
    decode_value (df + 1) classes data base 0x03 =
      decode_document df classes data base false := by
  rw [decode_value]
  norm_num

theorem decode_value_arr_disp (df : Nat) (classes : Classes) (data : List Nat) (base : Int) :
    decode_value (df + 1) classes data base 0x04 =
      decode_document df classes data base true := by
  rw [decode_value]
  norm_num

/-! ## Preparatory lemmas for the round-trip induction -/

theorem pair_ok {α : Type} (st st' : EncSt) (r : Except Err α) (bs : α)
    (h : ((st, r) : EncSt × Except Err α) = (st', .ok bs)) : r = .ok bs :=
  congrArg Prod.snd h

theorem sgn8_small (t : Nat) (h : t < 128) : sgn8 [t] = (t : Int) := by
  unfold sgn8 sgnOf
  rw [show fromLE [t] = t from by unfold fromLE fromLE; omega]
  rw [if_pos (by omega)]

theorem pyDictGet_mem : ∀ (obj : PyDict) (k : PyKey) (v : Value),
    pyDictGet obj k = some v → (k, v) ∈ obj := by
  intro obj
  induction obj with
  | nil => intro k v h; exact absurd h (by intro hq; cases hq)
  | cons kv rest ih =>
      intro k v h
      obtain ⟨k2, v2⟩ := kv
      unfold pyDictGet at h
      by_cases hk : k2 = k
      · rw [if_pos hk] at h
        injection h with h2
        subst hk; subst h2
        exact List.mem_cons_self _ _
      · rw [if_neg hk] at h
        exact List.mem_cons_of_mem _ (ih k v h)

theorem pyDictGet_none_of_not_mem : ∀ (l : PyDict) (k : PyKey),
    (∀ kv ∈ l, kv.1 ≠ k) → pyDictGet l k = none := by
  intro l
  induction l with
  | nil => intro k _; rfl
  | cons kv rest ih =>
      intro k h
      obtain ⟨k2, v2⟩ := kv
      unfold pyDictGet
      rw [if_neg (h (k2, v2) (List.mem_cons_self _ _))]
      exact ih k (fun kv2 hkv2 => h kv2 (List.mem_cons_of_mem _ hkv2))

theorem narrowKVs_keys : ∀ (kvs : PyDict),
    (narrowKVs kvs).map Prod.fst = kvs.map Prod.fst := by
  intro kvs
  induction kvs with
  | nil => rfl
  | cons kv rest ih =>
      obtain ⟨k, v⟩ := kv
      rw [show narrowKVs ((k, v) :: rest) = (k, narrow v) :: narrowKVs rest from rfl]
      rw [List.map_cons, List.map_cons, ih]

theorem supported_doc (kvs : PyDict) :
    supported (.doc kvs) = (supportedKVs kvs && decide ((kvs.map Prod.fst).Nodup)) := rfl

theorem supported_arr (xs : List Value) : supported (.arr xs) = supportedList xs := rfl

theorem supportedList_cons (v : Value) (rest : List Value) :
    supportedList (v :: rest) = (supported v && supportedList rest) := rfl

theorem supportedKVs_cons (k : PyKey) (v : Value) (rest : PyDict) :
    supportedKVs ((k, v) :: rest) =
      ((match k with | .str _ => true | .bytes _ => false) &&
        decide (k ≠ CLASSNAME_KEY) && supported v && supportedKVs rest) := rfl

theorem supportedKVs_spec (obj : PyDict) (h : supportedKVs obj = true) :
    ∀ kv ∈ obj, (∃ ks, kv.1 = PyKey.str ks) ∧ kv.1 ≠ CLASSNAME_KEY ∧
      supported kv.2 = true := by
  induction obj with
  | nil => intro kv hkv; cases hkv
  | cons kv0 rest ih =>
      intro kv hkv
      obtain ⟨k, v⟩ := kv0
      rw [supportedKVs_cons] at h
      simp only [Bool.and_eq_true] at h
      obtain ⟨⟨⟨hk, hm⟩, hv⟩, hrest⟩ := h
      rcases List.mem_cons.mp hkv with heq | hmem
      · subst heq
        refine ⟨?_, of_decide_eq_true hm, hv⟩
        cases k with
        | str s => exact ⟨s, rfl⟩
        | bytes b => exact Bool.noConfusion hk
      · exact ih hrest kv hmem

theorem supportedList_spec (xs : List Value) (h : supportedList xs = true) :
    ∀ v ∈ xs, supported v = true := by
  induction xs with
  | nil => intro v hv; cases hv
  | cons v0 rest ih =>
      intro v hv
      rw [supportedList_cons] at h
      simp only [Bool.and_eq_true] at h
      rcases List.mem_cons.mp hv with heq | hmem
      · subst heq; exact h.1
      · exact ih h.2 v hmem

theorem encode_cstring_structure (name : PyKey) (cs : List Nat)
    (h : encode_cstring name = .ok cs) :
    ∃ nb, pyKeyBytes name = .ok nb ∧ (∀ x ∈ nb, x ≠ 0) ∧ cs = nb ++ [0] := by
  unfold encode_cstring at h
  obtain ⟨nb, hnb, h2⟩ := ebind_ok _ _ _ h
  by_cases h0 : 0 ∈ nb
  · rw [if_pos h0] at h2
    exact Except.noConfusion h2
  · rw [if_neg h0] at h2
    injection h2 with h3
    exact ⟨nb, hnb, fun x hx hq => h0 (hq ▸ hx), h3.symm⟩

theorem pyKeyBytes_str (ks nb : List Nat) (h : pyKeyBytes (.str ks) = .ok nb) :
    utf8Encode ks = some nb := by
  unfold pyKeyBytes at h
  obtain ⟨a, ha, h2⟩ := oelim_ok _ _ _ _ h
  injection h2 with h3
  rw [ha, h3]

/-- The joint round-trip invariant, by strong induction on the encoder's
fuel: every successfully encoded supported value decodes (with any
sufficiently large decoder fuel, at any position of a larger buffer) to
its narrowed form, with the cursor advanced exactly past its bytes. -/
theorem round_trip_master : ∀ fuel : Nat,
    (∀ name v st st' bs, supported v = true →
      encode_value fuel name v st none none = (st', .ok bs) →
      ∃ (t : Nat) (nb payload : List Nat),
        pyKeyBytes name = .ok nb ∧ (∀ x ∈ nb, x ≠ 0) ∧
        bs = t :: (nb ++ [0]) ++ payload ∧ t < 128 ∧
        ∃ D, ∀ (classes : Classes) (pre post : List Nat) (df : Nat), D ≤ df →
          decode_value df classes (pre ++ payload ++ post) ((pre.length : Int)) (t : Int) =
            .ok ((pre.length : Int) + (payload.length : Int), narrow v)) ∧
    (∀ obj st st' bs tp, supported (.doc obj) = true →
      encode_document fuel obj st tp none none = (st', .ok bs) →
      ∃ D, ∀ (classes : Classes) (pre post : List Nat) (df : Nat), D ≤ df →
        decode_document df classes (pre ++ bs ++ post) ((pre.length : Int)) false =
          .ok ((pre.length : Int) + (bs.length : Int), narrow (.doc obj))) ∧
    (∀ obj keys st st' chunk tp,
      encode_elems fuel obj keys st tp none none = (st', .ok chunk) →
      (∀ k ∈ keys, ∃ ks, k = PyKey.str ks) →
      (∀ k ∈ keys, ∀ v, pyDictGet obj k = some v → supported v = true) →
      ∃ D, ∀ (classes : Classes) (pre post : List Nat) (df : Nat) (acc : PyDict), D ≤ df →
        decode_elems df classes (pre ++ chunk ++ 0 :: post)
          ((pre.length : Int) + (chunk.length : Int) + 1) ((pre.length : Int)) (.inl acc) =
          .ok (.inl (decAccD obj keys acc))) ∧
    (∀ xs st st' bs tp, supported (.arr xs) = true →
      encode_array fuel xs st tp none none = (st', .ok bs) →
      ∃ D, ∀ (classes : Classes) (pre post : List Nat) (df : Nat), D ≤ df →
        decode_document df classes (pre ++ bs ++ post) ((pre.length : Int)) true =
          .ok ((pre.length : Int) + (bs.length : Int), narrow (.arr xs))) ∧
    (∀ array i items st st' chunk tp,
      (∀ v ∈ items, supported v = true) →
      encode_arr_elems fuel array i items st tp none none = (st', .ok chunk) →
      ∃ D, ∀ (classes : Classes) (pre post : List Nat) (df : Nat) (acc : List Value),
          D ≤ df →
        decode_elems df classes (pre ++ chunk ++ 0 :: post)
          ((pre.length : Int) + (chunk.length : Int) + 1) ((pre.length : Int)) (.inr acc) =
          .ok (.inr (acc ++ narrowList items))) := by
  intro fuel
  induction fuel using Nat.strong_induction_on with
  | _ fuel ih =>
  refine ⟨?_, ?_, ?_, ?_, ?_⟩
  -- encode_value
  · intro name v st st' bs hsup h
    cases fuel with
    | zero =>
        rw [encode_value_zero] at h
        exact absurd h (by intro hq; cases hq)
    | succ f =>
        cases v with
        | bool b =>
            rw [encode_value_bool] at h
            obtain ⟨cs, hcs, h3⟩ := ebind_ok _ _ _ (pair_ok _ _ _ _ h)
            injection h3 with h4
            obtain ⟨nb, hnb, h0f, hcs2⟩ := encode_cstring_structure name cs hcs
            refine ⟨8, nb, [if b then 1 else 0], hnb, h0f, ?_, by omega, 1, ?_⟩
            · rw [← h4, hcs2]
            · intro classes pre post df hdf
              obtain ⟨df2, rfl⟩ : ∃ df2, df = df2 + 1 := ⟨df - 1, by omega⟩
              rw [show ((pre.length : Int) + (([if b then 1 else 0] : List Nat).length : Int)) =
                (pre.length : Int) + 1 from by norm_num]
              rw [show narrow (.bool b) = .bool b from rfl]
              exact decode_seg_bool df2 classes pre post b
        | int i =>
            rw [encode_value_int] at h
            split_ifs at h with h1 h2 h3
            · obtain ⟨cs, hcs, h3⟩ := ebind_ok _ _ _ (pair_ok _ _ _ _ h)
              obtain ⟨pb, hpb, h4⟩ := oelim_ok _ _ _ _ h3
              injection h4 with h5
              obtain ⟨nb, hnb, h0f, hcs2⟩ := encode_cstring_structure name cs hcs
              refine ⟨18, nb, pb, hnb, h0f, ?_, by omega, 1, ?_⟩
              · rw [← h5, hcs2]
              · intro classes pre post df hdf
                obtain ⟨df2, rfl⟩ : ∃ df2, df = df2 + 1 := ⟨df - 1, by omega⟩
                rw [show ((pb.length : Nat) : Int) = 8 from by
                  rw [packInt64_length i pb hpb]; norm_num]
                rw [show narrow (.int i) = .int i from rfl]
                exact decode_seg_int64 df2 classes pre post pb i hpb
            · exact absurd (pair_ok _ _ _ _ h) (by intro hq; cases hq)
            · obtain ⟨cs, hcs, h3⟩ := ebind_ok _ _ _ (pair_ok _ _ _ _ h)
              obtain ⟨pb, hpb, h4⟩ := oelim_ok _ _ _ _ h3
              injection h4 with h5
              obtain ⟨nb, hnb, h0f, hcs2⟩ := encode_cstring_structure name cs hcs
              refine ⟨17, nb, pb, hnb, h0f, ?_, by omega, 1, ?_⟩
              · rw [← h5, hcs2]
              · intro classes pre post df hdf
                obtain ⟨df2, rfl⟩ : ∃ df2, df = df2 + 1 := ⟨df - 1, by omega⟩
                rw [show ((pb.length : Nat) : Int) = 8 from by
                  rw [packUInt64_length i pb hpb]; norm_num]
                rw [show narrow (.int i) = .int i from rfl]
                exact decode_seg_uint64 df2 classes pre post pb i hpb
            · obtain ⟨pb, hpb, h3⟩ := oelim_ok _ _ _ _ (pair_ok _ _ _ _ h)
              obtain ⟨cs, hcs, h4⟩ := ebind_ok _ _ _ h3
              injection h4 with h5
              obtain ⟨nb, hnb, h0f, hcs2⟩ := encode_cstring_structure name cs hcs
              refine ⟨16, nb, pb, hnb, h0f, ?_, by omega, 1, ?_⟩
              · rw [← h5, hcs2]
              · intro classes pre post df hdf
                obtain ⟨df2, rfl⟩ : ∃ df2, df = df2 + 1 := ⟨df - 1, by omega⟩
                rw [show ((pb.length : Nat) : Int) = 4 from by
                  rw [packInt32_length i pb hpb]; norm_num]
                rw [show narrow (.int i) = .int i from rfl]
                exact decode_seg_int32 df2 classes pre post pb i hpb
        | i32 i => exact Bool.noConfusion (show (false : Bool) = true from hsup)
        | i64 i => exact Bool.noConfusion (show (false : Bool) = true from hsup)
        | u64 i => exact Bool.noConfusion (show (false : Bool) = true from hsup)
        | obj n s => exact Bool.noConfusion (show (false : Bool) = true from hsup)
        | unknown u => exact Bool.noConfusion (show (false : Bool) = true from hsup)
        | double bits =>
            rw [encode_value_double] at h
            obtain ⟨cs, hcs, h3⟩ := ebind_ok _ _ _ (pair_ok _ _ _ _ h)
            injection h3 with h4
            obtain ⟨nb, hnb, h0f, hcs2⟩ := encode_cstring_structure name cs hcs
            have hbits : bits < 18446744073709551616 := of_decide_eq_true hsup
            refine ⟨1, nb, leBytes 8 bits, hnb, h0f, ?_, by omega, 1, ?_⟩
            · rw [← h4, hcs2]; rfl
            · intro classes pre post df hdf
              obtain ⟨df2, rfl⟩ : ∃ df2, df = df2 + 1 := ⟨df - 1, by omega⟩
              rw [show (((leBytes 8 bits).length : Nat) : Int) = 8 from by
                rw [leBytes_length]; norm_num]
              rw [show narrow (.double bits) = .double bits from rfl]
              exact decode_seg_double df2 classes pre post bits hbits
        | decimal bits =>
            rw [encode_value_decimal] at h
            obtain ⟨cs, hcs, h3⟩ := ebind_ok _ _ _ (pair_ok _ _ _ _ h)
            injection h3 with h4
            obtain ⟨nb, hnb, h0f, hcs2⟩ := encode_cstring_structure name cs hcs
            have hbits : bits < 18446744073709551616 := of_decide_eq_true hsup
            refine ⟨1, nb, leBytes 8 bits, hnb, h0f, ?_, by omega, 1, ?_⟩
            · rw [← h4, hcs2]; rfl
            · intro classes pre post df hdf
              obtain ⟨df2, rfl⟩ : ∃ df2, df = df2 + 1 := ⟨df - 1, by omega⟩
              rw [show (((leBytes 8 bits).length : Nat) : Int) = 8 from by
                rw [leBytes_length]; norm_num]
              rw [show narrow (.decimal bits) = .double bits from rfl]
              exact decode_seg_double df2 classes pre post bits hbits
        | str s =>
            rw [encode_value_str] at h
            obtain ⟨cs, hcs, h3⟩ := ebind_ok _ _ _ (pair_ok _ _ _ _ h)
            obtain ⟨sv, hsv, h4⟩ := ebind_ok _ _ _ h3
            injection h4 with h5
            unfold encode_string at hsv
            obtain ⟨bv, hbv, h6⟩ := oelim_ok _ _ _ _ hsv
            obtain ⟨lb, hlb, h7⟩ := oelim_ok _ _ _ _ h6
            injection h7 with h8
            obtain ⟨nb, hnb, h0f, hcs2⟩ := encode_cstring_structure name cs hcs
            have hl4 := packInt32_length _ lb hlb
            refine ⟨2, nb, lb ++ bv ++ [0], hnb, h0f, ?_, by omega, 1, ?_⟩
            · rw [← h5, hcs2, ← h8]
            · intro classes pre post df hdf
              obtain ⟨df2, rfl⟩ : ∃ df2, df = df2 + 1 := ⟨df - 1, by omega⟩
              have hlen : (((lb ++ bv ++ [0]).length : Nat) : Int) =
                  4 + ((bv.length : Int) + 1) := by
                push_cast [List.length_append, List.length_cons, List.length_nil, hl4]
                omega
              rw [hlen]
              rw [show narrow (.str s) = .str s from rfl]
              rw [show ((pre.length : Int) + (4 + ((bv.length : Int) + 1))) =
                (pre.length : Int) + 4 + ((bv.length : Int) + 1) from by ring]
              exact decode_seg_string df2 classes pre post lb bv s hlb hbv
        | bin b =>
            rw [encode_value_bin] at h
            obtain ⟨cs, hcs, h3⟩ := ebind_ok _ _ _ (pair_ok _ _ _ _ h)
            obtain ⟨sv, hsv, h4⟩ := ebind_ok _ _ _ h3
            injection h4 with h5
            unfold encode_binary at hsv
            obtain ⟨lb, hlb, h7⟩ := oelim_ok _ _ _ _ hsv
            injection h7 with h8
            obtain ⟨nb, hnb, h0f, hcs2⟩ := encode_cstring_structure name cs hcs
            have hl4 := packInt32_length _ lb hlb
            refine ⟨5, nb, lb ++ [0] ++ b, hnb, h0f, ?_, by omega, 1, ?_⟩
            · rw [← h5, hcs2, ← h8]
            · intro classes pre post df hdf
              obtain ⟨df2, rfl⟩ : ∃ df2, df = df2 + 1 := ⟨df - 1, by omega⟩
              have hlen : (((lb ++ [0] ++ b).length : Nat) : Int) = 5 + (b.length : Int) := by
                push_cast [List.length_append, List.length_cons, List.length_nil, hl4]
                omega
              rw [hlen]
              rw [show narrow (.bin b) = .bin b from rfl]
              rw [show ((pre.length : Int) + (5 + (b.length : Int))) =
                (pre.length : Int) + 5 + (b.length : Int) from by ring]
              exact decode_seg_binary df2 classes pre post lb b hlb
        | uuid b =>
            rw [encode_value_uuid] at h
            obtain ⟨cs, hcs, h3⟩ := ebind_ok _ _ _ (pair_ok _ _ _ _ h)
            obtain ⟨sv, hsv, h4⟩ := ebind_ok _ _ _ h3
            injection h4 with h5
            unfold encode_binary at hsv
            obtain ⟨lb, hlb, h7⟩ := oelim_ok _ _ _ _ hsv
            injection h7 with h8
            obtain ⟨nb, hnb, h0f, hcs2⟩ := encode_cstring_structure name cs hcs
            have hl4 := packInt32_length _ lb hlb
            have h16 : b.length = 16 := of_decide_eq_true hsup
            refine ⟨5, nb, lb ++ [4] ++ b, hnb, h0f, ?_, by omega, 1, ?_⟩
            · rw [← h5, hcs2, ← h8]
            · intro classes pre post df hdf
              obtain ⟨df2, rfl⟩ : ∃ df2, df = df2 + 1 := ⟨df - 1, by omega⟩
              have hlen : (((lb ++ [4] ++ b).length : Nat) : Int) = 5 + (b.length : Int) := by
                push_cast [List.length_append, List.length_cons, List.length_nil, hl4]
                omega
              rw [hlen]
              rw [show narrow (.uuid b) = .uuid b from rfl]
              rw [show ((pre.length : Int) + (5 + (b.length : Int))) =
                (pre.length : Int) + 5 + (b.length : Int) from by ring]
              exact decode_seg_uuid df2 classes pre post lb b hlb h16
        | dt secs usec tz =>
            rw [encode_value_dt] at h
            obtain ⟨cs, hcs, h3⟩ := ebind_ok _ _ _ (pair_ok _ _ _ _ h)
            obtain ⟨pb, hpb, h4⟩ := oelim_ok _ _ _ _ h3
            injection h4 with h5
            obtain ⟨nb, hnb, h0f, hcs2⟩ := encode_cstring_structure name cs hcs
            refine ⟨9, nb, pb, hnb, h0f, ?_, by omega, 1, ?_⟩
            · rw [← h5, hcs2]
            · intro classes pre post df hdf
              obtain ⟨df2, rfl⟩ : ∃ df2, df = df2 + 1 := ⟨df - 1, by omega⟩
              rw [show ((pb.length : Nat) : Int) = 8 from by
                rw [packInt64_length _ pb hpb]; norm_num]
              rw [show narrow (.dt secs usec tz) =
                .dt ((secs * 1000 + (rheDiv usec 1000 : Int)).fdiv 1000)
                  (((secs * 1000 + (rheDiv usec 1000 : Int)).fmod 1000).toNat * 1000)
                  true from rfl]
              exact decode_seg_dt df2 classes pre post pb _ hpb
        | null =>
            rw [encode_value_null] at h
            obtain ⟨cs, hcs, h3⟩ := ebind_ok _ _ _ (pair_ok _ _ _ _ h)
            injection h3 with h4
            obtain ⟨nb, hnb, h0f, hcs2⟩ := encode_cstring_structure name cs hcs
            refine ⟨10, nb, [], hnb, h0f, ?_, by omega, 1, ?_⟩
            · rw [← h4, hcs2]; simp
            · intro classes pre post df hdf
              obtain ⟨df2, rfl⟩ : ∃ df2, df = df2 + 1 := ⟨df - 1, by omega⟩
              rw [show ((pre.length : Int) + (([] : List Nat).length : Int)) =
                (pre.length : Int) from by norm_num]
              rw [show narrow (.null) = .null from rfl]
              exact decode_seg_null df2 classes (pre ++ [] ++ post) ((pre.length : Int))
        | doc kvs =>
            rw [encode_value_doc] at h
            cases f with
            | zero =>
                rw [encode_document_element_zero] at h
                exact absurd h (by intro hq; cases hq)
            | succ f2 =>
                rw [encode_document_element_unfold] at h
                obtain ⟨cs, hcs, h2⟩ := cstep_ok _ _ _ _ _ h
                obtain ⟨dbs, h3, h4⟩ := stMap_ok _ _ _ _ h2
                obtain ⟨nb, hnb, h0f, hcs2⟩ := encode_cstring_structure name cs hcs
                obtain ⟨D, hD⟩ := (ih f2 (by omega)).2.1 kvs st st' dbs .null hsup h3
                refine ⟨3, nb, dbs, hnb, h0f, ?_, by omega, D + 1, ?_⟩
                · rw [h4, hcs2]
                · intro classes pre post df hdf
                  obtain ⟨df2, rfl⟩ : ∃ df2, df = df2 + 1 := ⟨df - 1, by omega⟩
                  exact (decode_value_doc_disp df2 classes (pre ++ dbs ++ post)
                    ((pre.length : Int))).trans (hD classes pre post df2 (by omega))
        | arr xs =>
            rw [encode_value_arr] at h
            cases f with
            | zero =>
                rw [encode_array_element_zero] at h
                exact absurd h (by intro hq; cases hq)
            | succ f2 =>
                rw [encode_array_element_unfold] at h
                obtain ⟨cs, hcs, h2⟩ := cstep_ok _ _ _ _ _ h
                obtain ⟨abs2, h3, h4⟩ := stMap_ok _ _ _ _ h2
                obtain ⟨nb, hnb, h0f, hcs2⟩ := encode_cstring_structure name cs hcs
                obtain ⟨D, hD⟩ := (ih f2 (by omega)).2.2.2.1 xs st st' abs2 .null hsup h3
                refine ⟨4, nb, abs2, hnb, h0f, ?_, by omega, D + 1, ?_⟩
                · rw [h4, hcs2]
                · intro classes pre post df hdf
                  obtain ⟨df2, rfl⟩ : ∃ df2, df = df2 + 1 := ⟨df - 1, by omega⟩
                  exact (decode_value_arr_disp df2 classes (pre ++ abs2 ++ post)
                    ((pre.length : Int))).trans (hD classes pre post df2 (by omega))
  -- encode_document
  · intro obj st st' bs tp hsup h
    cases fuel with
    | zero =>
        rw [encode_document_zero] at h
        exact absurd h (by intro hq; cases hq)
    | succ f =>
        rw [encode_document_unfold_none] at h
        obtain ⟨st1, e_list, l, helems, hpack, hst, hbs⟩ := pack_e_list_ok _ _ _ h
        rw [supported_doc] at hsup
        simp only [Bool.and_eq_true] at hsup
        have hnd : (obj.map Prod.fst).Nodup := of_decide_eq_true hsup.2
        have hspec := supportedKVs_spec obj hsup.1
        obtain ⟨D, hD⟩ := (ih f (by omega)).2.2.1 obj (obj.map Prod.fst) st st1 e_list tp
          helems
          (fun k hk => by
            rcases List.mem_map.mp hk with ⟨kv, hkv, hkve⟩
            obtain ⟨ks, hks⟩ := (hspec kv hkv).1
            exact ⟨ks, by rw [← hkve, hks]⟩)
          (fun k hk v hv => (hspec (k, v) (pyDictGet_mem obj k v hv)).2.2)
        subst hbs
        refine ⟨D + 1, ?_⟩
        intro classes pre post df hdf
        obtain ⟨df2, rfl⟩ : ∃ df2, df = df2 + 1 := ⟨df - 1, by omega⟩
        have hl4 := packInt32_length _ l hpack
        rw [decode_document]
        have hs1 : pySlice (pre ++ (l ++ e_list ++ [0]) ++ post) ((pre.length : Int))
            ((pre.length : Int) + 4) = l :=
          pySlice_seg _ pre l (e_list ++ [0] ++ post) _ _ (by simp) rfl
            (by rw [hl4]; norm_num)
        rw [hs1]
        rw [if_pos hl4]
        rw [sgn32_packInt32 _ _ hpack]
        dsimp only
        have hidx : pyIndexGet (pre ++ (l ++ e_list ++ [0]) ++ post)
            ((pre.length : Int) + ((e_list.length : Int) + 4 + 1) - 1) = some 0 :=
          pyIndexGet_seg _ (pre ++ l ++ e_list) post 0 _ (by simp)
            (by push_cast [List.length_append, hl4]; ring)
        rw [hidx]
        dsimp only
        rw [if_neg (by norm_num)]
        have hrec := hD classes (pre ++ l) post df2 [] (by omega)
        rw [show ((pre ++ l) ++ e_list ++ 0 :: post) =
          pre ++ (l ++ e_list ++ [0]) ++ post from by simp] at hrec
        have e1 : (((pre ++ l).length : Nat) : Int) = (pre.length : Int) + 4 := by
          push_cast [List.length_append, hl4]; ring
        rw [e1] at hrec
        have e2 : ((pre.length : Int) + 4 + (e_list.length : Int) + 1) =
            (pre.length : Int) + ((e_list.length : Int) + 4 + 1) := by ring
        rw [e2] at hrec
        rw [show (if false = true then (Sum.inr [] : PyDict ⊕ List Value)
          else Sum.inl []) = Sum.inl [] from rfl]
        rw [hrec]
        dsimp only
        rw [decAcc_append obj obj [] (pyDictGet_self_of_nodup obj hnd)
          (fun kv _ kv2 h2 => absurd h2 (List.not_mem_nil kv2)) hnd]
        rw [List.nil_append]
        have hmark : pyDictGet (narrowKVs obj) CLASSNAME_KEY = none := by
          apply pyDictGet_none_of_not_mem
          intro kv hkv
          have : kv.1 ∈ (narrowKVs obj).map Prod.fst := List.mem_map.mpr ⟨kv, hkv, rfl⟩
          rw [narrowKVs_keys] at this
          rcases List.mem_map.mp this with ⟨kv2, hkv2, hkv2e⟩
          rw [← hkv2e]
          exact (hspec kv2 hkv2).2.1
        have hfd : finish_document classes (Sum.inl (narrowKVs obj)) =
            if (pyDictGet (narrowKVs obj) CLASSNAME_KEY).isSome = true then
              decode_object classes (narrowKVs obj)
            else .ok (.doc (narrowKVs obj)) := rfl
        rw [hfd, hmark]
        rw [if_neg (by simp)]
        rw [show narrow (.doc obj) = .doc (narrowKVs obj) from rfl]
        have e3 : ((pre.length : Int) + (((l ++ e_list ++ [0]).length : Nat) : Int)) =
            (pre.length : Int) + ((e_list.length : Int) + 4 + 1) := by
          push_cast [List.length_append, List.length_cons, List.length_nil, hl4]; ring
        rw [e3]

  -- encode_elems
  · intro obj keys st st' chunk tp h hkeys hvals
    cases fuel with
    | zero =>
        rw [encode_elems_zero] at h
        exact absurd h (by intro hq; cases hq)
    | succ f =>
        cases keys with
        | nil =>
            rw [encode_elems_nil] at h
            injection h with h1 h2
            injection h2 with h3
            subst h3
            refine ⟨1, ?_⟩
            intro classes pre post df acc hdf
            obtain ⟨df2, rfl⟩ : ∃ df2, df = df2 + 1 := ⟨df - 1, by omega⟩
            rw [decode_elems]
            rw [if_neg (by norm_num)]
            rfl
        | cons k rest =>
            rw [encode_elems_cons] at h
            obtain ⟨v, hv, h2⟩ := olift_ok _ _ _ _ _ _ h
            obtain ⟨st2, bs1, hev, h3⟩ := stBind_ok _ _ _ _ h2
            obtain ⟨chunkRest, hrest, hchunk⟩ := stMap_ok _ _ _ _ h3
            have hchunk2 : chunk = bs1 ++ chunkRest := hchunk
            have hsv := hvals k (List.mem_cons_self _ _) v hv
            obtain ⟨t, nb, payload, hnb, h0f, hbs1, ht128, D1, hD1⟩ :=
              (ih f (by omega)).1 k v _ st2 bs1 hsv hev
            obtain ⟨ks, hk⟩ := hkeys k (List.mem_cons_self _ _)
            subst hk
            have henc : utf8Encode ks = some nb := pyKeyBytes_str ks nb hnb
            obtain ⟨D2, hD2⟩ := (ih f (by omega)).2.2.1 obj rest _ st' chunkRest tp hrest
              (fun k2 hk2 => hkeys k2 (List.mem_cons_of_mem _ hk2))
              (fun k2 hk2 v2 hv2 => hvals k2 (List.mem_cons_of_mem _ hk2) v2 hv2)
            subst hbs1
            subst hchunk2
            refine ⟨D1 + D2 + 1, ?_⟩
            intro classes pre post df acc hdf
            obtain ⟨df2, rfl⟩ : ∃ df2, df = df2 + 1 := ⟨df - 1, by omega⟩
            rw [decode_elems]
            rw [if_pos (by push_cast [List.length_append, List.length_cons]; omega)]
            have hs1 : pySlice
                (pre ++ (t :: (nb ++ [0]) ++ payload ++ chunkRest) ++ 0 :: post)
                ((pre.length : Int)) ((pre.length : Int) + 1) = [t] :=
              pySlice_seg _ pre [t] ((nb ++ [0]) ++ payload ++ chunkRest ++ 0 :: post)
                _ _ (by simp) rfl (by norm_num)
            rw [hs1]
            rw [if_pos (show ([t] : List Nat).length = 1 from rfl)]
            rw [sgn8_small t ht128]
            have hf : pyFind
                (pre ++ (t :: (nb ++ [0]) ++ payload ++ chunkRest) ++ 0 :: post)
                ((pre.length : Int) + 1) = some ((pre ++ [t]).length + nb.length) :=
              pyFind_seg _ (pre ++ [t]) nb (payload ++ chunkRest ++ 0 :: post) _
                (by simp) h0f
                (by push_cast [List.length_append, List.length_cons, List.length_nil]; ring)
            rw [hf]
            dsimp only
            have hdv := hD1 classes (pre ++ [t] ++ nb ++ [0]) (chunkRest ++ 0 :: post)
              df2 (by omega)
            rw [show ((pre ++ [t] ++ nb ++ [0]) ++ payload ++ (chunkRest ++ 0 :: post)) =
              pre ++ (t :: (nb ++ [0]) ++ payload ++ chunkRest) ++ 0 :: post from by
              simp] at hdv
            have e1 : (((pre ++ [t] ++ nb ++ [0]).length : Nat) : Int) =
                ((((pre ++ [t]).length + nb.length : Nat)) : Int) + 1 := by
              push_cast [List.length_append, List.length_cons, List.length_nil]; ring
            rw [e1] at hdv
            rw [hdv]
            dsimp only
            have hs2 : pySlice
                (pre ++ (t :: (nb ++ [0]) ++ payload ++ chunkRest) ++ 0 :: post)
                ((pre.length : Int) + 1)
                (((((pre ++ [t]).length + nb.length : Nat)) : Int) + 1 - 1) = nb :=
              pySlice_seg _ (pre ++ [t]) nb ([0] ++ payload ++ chunkRest ++ 0 :: post)
                _ _ (by simp)
                (by push_cast [List.length_append, List.length_cons, List.length_nil]; ring)
                (by push_cast [List.length_append, List.length_cons, List.length_nil]; ring)
            rw [hs2]
            rw [utf8Decode_utf8Encode ks nb henc]
            dsimp only
            have hrec := hD2 classes (pre ++ (t :: (nb ++ [0]) ++ payload)) post df2
              (pyInsert acc (.str ks) (narrow v)) (by omega)
            rw [show ((pre ++ (t :: (nb ++ [0]) ++ payload)) ++ chunkRest ++ 0 :: post) =
              pre ++ (t :: (nb ++ [0]) ++ payload ++ chunkRest) ++ 0 :: post from by
              simp] at hrec
            have e2 : (((pre ++ (t :: (nb ++ [0]) ++ payload)).length : Nat) : Int) =
                ((((pre ++ [t]).length + nb.length : Nat)) : Int) + 1 +
                  (payload.length : Int) := by
              push_cast [List.length_append, List.length_cons, List.length_nil]; ring
            rw [e2] at hrec
            have e3 : ((((pre ++ [t]).length + nb.length : Nat) : Int) + 1 +
                (payload.length : Int) + (chunkRest.length : Int) + 1) =
              (pre.length : Int) +
                (((t :: (nb ++ [0]) ++ payload ++ chunkRest) : List Nat).length : Int) + 1 := by
              push_cast [List.length_append, List.length_cons, List.length_nil]; ring
            rw [e3] at hrec
            rw [decAccD_cons, hv]
            rw [hrec]

  -- encode_array
  · intro xs st st' bs tp hsup h
    cases fuel with
    | zero =>
        rw [encode_array_zero] at h
        exact absurd h (by intro hq; cases hq)
    | succ f =>
        rw [encode_array_unfold] at h
        obtain ⟨st1, e_list, l, helems, hpack, hst, hbs⟩ := pack_e_list_ok _ _ _ h
        rw [supported_arr] at hsup
        obtain ⟨D, hD⟩ := (ih f (by omega)).2.2.2.2 xs 0 xs st st1 e_list tp
          (supportedList_spec xs hsup) helems
        subst hbs
        refine ⟨D + 1, ?_⟩
        intro classes pre post df hdf
        obtain ⟨df2, rfl⟩ : ∃ df2, df = df2 + 1 := ⟨df - 1, by omega⟩
        have hl4 := packInt32_length _ l hpack
        rw [decode_document]
        have hs1 : pySlice (pre ++ (l ++ e_list ++ [0]) ++ post) ((pre.length : Int))
            ((pre.length : Int) + 4) = l :=
          pySlice_seg _ pre l (e_list ++ [0] ++ post) _ _ (by simp) rfl
            (by rw [hl4]; norm_num)
        rw [hs1]
        rw [if_pos hl4]
        rw [sgn32_packInt32 _ _ hpack]
        dsimp only
        have hidx : pyIndexGet (pre ++ (l ++ e_list ++ [0]) ++ post)
            ((pre.length : Int) + ((e_list.length : Int) + 4 + 1) - 1) = some 0 :=
          pyIndexGet_seg _ (pre ++ l ++ e_list) post 0 _ (by simp)
            (by push_cast [List.length_append, hl4]; ring)
        rw [hidx]
        dsimp only
        rw [if_neg (by norm_num)]
        have hrec := hD classes (pre ++ l) post df2 [] (by omega)
        rw [show ((pre ++ l) ++ e_list ++ 0 :: post) =
          pre ++ (l ++ e_list ++ [0]) ++ post from by simp] at hrec
        have e1 : (((pre ++ l).length : Nat) : Int) = (pre.length : Int) + 4 := by
          push_cast [List.length_append, hl4]; ring
        rw [e1] at hrec
        have e2 : ((pre.length : Int) + 4 + (e_list.length : Int) + 1) =
            (pre.length : Int) + ((e_list.length : Int) + 4 + 1) := by ring
        rw [e2] at hrec
        rw [show (if true = true then (Sum.inr [] : PyDict ⊕ List Value)
          else Sum.inl []) = Sum.inr [] from rfl]
        rw [hrec]
        dsimp only
        rw [List.nil_append]
        rw [show finish_document classes (Sum.inr (narrowList xs)) =
          .ok (.arr (narrowList xs)) from rfl]
        rw [show narrow (.arr xs) = .arr (narrowList xs) from rfl]
        have e3 : ((pre.length : Int) + (((l ++ e_list ++ [0]).length : Nat) : Int)) =
            (pre.length : Int) + ((e_list.length : Int) + 4 + 1) := by
          push_cast [List.length_append, List.length_cons, List.length_nil, hl4]; ring
        rw [e3]

  -- encode_arr_elems
  · intro array i items st st' chunk tp hvals h
    cases fuel with
    | zero =>
        rw [encode_arr_elems_zero] at h
        exact absurd h (by intro hq; cases hq)
    | succ f =>
        cases items with
        | nil =>
            rw [encode_arr_elems_nil] at h
            injection h with h1 h2
            injection h2 with h3
            subst h3
            refine ⟨1, ?_⟩
            intro classes pre post df acc hdf
            obtain ⟨df2, rfl⟩ : ∃ df2, df = df2 + 1 := ⟨df - 1, by omega⟩
            rw [decode_elems]
            rw [if_neg (by norm_num)]
            rw [show narrowList ([] : List Value) = [] from rfl, List.append_nil]
        | cons v rest =>
            rw [encode_arr_elems_cons] at h
            obtain ⟨st2, bs1, hev, h3⟩ := stBind_ok _ _ _ _ h
            obtain ⟨chunkRest, hrest, hchunk⟩ := stMap_ok _ _ _ _ h3
            have hchunk2 : chunk = bs1 ++ chunkRest := hchunk
            have hsv := hvals v (List.mem_cons_self _ _)
            obtain ⟨t, nb, payload, hnb, h0f, hbs1, ht128, D1, hD1⟩ :=
              (ih f (by omega)).1 _ v _ st2 bs1 hsv hev
            obtain ⟨D2, hD2⟩ := (ih f (by omega)).2.2.2.2 array (i + 1) rest _ st'
              chunkRest tp (fun v2 hv2 => hvals v2 (List.mem_cons_of_mem _ hv2)) hrest
            subst hbs1
            subst hchunk2
            refine ⟨D1 + D2 + 1, ?_⟩
            intro classes pre post df acc hdf
            obtain ⟨df2, rfl⟩ : ∃ df2, df = df2 + 1 := ⟨df - 1, by omega⟩
            rw [decode_elems]
            rw [if_pos (by push_cast [List.length_append, List.length_cons]; omega)]
            have hs1 : pySlice
                (pre ++ (t :: (nb ++ [0]) ++ payload ++ chunkRest) ++ 0 :: post)
                ((pre.length : Int)) ((pre.length : Int) + 1) = [t] :=
              pySlice_seg _ pre [t] ((nb ++ [0]) ++ payload ++ chunkRest ++ 0 :: post)
                _ _ (by simp) rfl (by norm_num)
            rw [hs1]
            rw [if_pos (show ([t] : List Nat).length = 1 from rfl)]
            rw [sgn8_small t ht128]
            have hf : pyFind
                (pre ++ (t :: (nb ++ [0]) ++ payload ++ chunkRest) ++ 0 :: post)
                ((pre.length : Int) + 1) = some ((pre ++ [t]).length + nb.length) :=
              pyFind_seg _ (pre ++ [t]) nb (payload ++ chunkRest ++ 0 :: post) _
                (by simp) h0f
                (by push_cast [List.length_append, List.length_cons, List.length_nil]; ring)
            rw [hf]
            dsimp only
            have hdv := hD1 classes (pre ++ [t] ++ nb ++ [0]) (chunkRest ++ 0 :: post)
              df2 (by omega)
            rw [show ((pre ++ [t] ++ nb ++ [0]) ++ payload ++ (chunkRest ++ 0 :: post)) =
              pre ++ (t :: (nb ++ [0]) ++ payload ++ chunkRest) ++ 0 :: post from by
              simp] at hdv
            have e1 : (((pre ++ [t] ++ nb ++ [0]).length : Nat) : Int) =
                ((((pre ++ [t]).length + nb.length : Nat)) : Int) + 1 := by
              push_cast [List.length_append, List.length_cons, List.length_nil]; ring
            rw [e1] at hdv
            rw [hdv]
            dsimp only
            have hrec := hD2 classes (pre ++ (t :: (nb ++ [0]) ++ payload)) post df2
              (acc ++ [narrow v]) (by omega)
            rw [show ((pre ++ (t :: (nb ++ [0]) ++ payload)) ++ chunkRest ++ 0 :: post) =
              pre ++ (t :: (nb ++ [0]) ++ payload ++ chunkRest) ++ 0 :: post from by
              simp] at hrec
            have e2 : (((pre ++ (t :: (nb ++ [0]) ++ payload)).length : Nat) : Int) =
                ((((pre ++ [t]).length + nb.length : Nat)) : Int) + 1 +
                  (payload.length : Int) := by
              push_cast [List.length_append, List.length_cons, List.length_nil]; ring
            rw [e2] at hrec
            have e3 : ((((pre ++ [t]).length + nb.length : Nat) : Int) + 1 +
                (payload.length : Int) + (chunkRest.length : Int) + 1) =
              (pre.length : Int) +
                (((t :: (nb ++ [0]) ++ payload ++ chunkRest) : List Nat).length : Int) +
                1 := by
              push_cast [List.length_append, List.length_cons, List.length_nil]; ring
            rw [e3] at hrec
            rw [hrec]
            rw [show narrowList (v :: rest) = narrow v :: narrowList rest from rfl]
            rw [List.append_assoc]
            rfl

/-- C1 counterexample: the round-trip narrowings are not the two the
claim documents.  A timestamp with 999999 microseconds comes back as the
next whole second — the encoder rounds `timegm * 1000 + usec / 1000.0`
to the nearest millisecond (half to even) rather than truncating; a
naive (timezone-less) timestamp comes back timezone-aware; and a
mapping with a `bytes` key comes back with the corresponding `str`
key. -/
theorem c1_counterexample :
    (dumps 10 (.doc [(.str [97], .dt 0 999999 true)]) none none).2 =
      .ok [16, 0, 0, 0, 9, 97, 0, 232, 3, 0, 0, 0, 0, 0, 0, 0] ∧
    loads 20 [] [16, 0, 0, 0, 9, 97, 0, 232, 3, 0, 0, 0, 0, 0, 0, 0] =
      .ok (.doc [(.str [97], .dt 1 0 true)]) ∧
    (Value.dt 1 0 true ≠ .dt 0 999000 true) ∧
    (dumps 10 (.doc [(.str [97], .dt 0 0 false)]) none none).2 =
      .ok [16, 0, 0, 0, 9, 97, 0, 0, 0, 0, 0, 0, 0, 0, 0, 0] ∧
    loads 20 [] [16, 0, 0, 0, 9, 97, 0, 0, 0, 0, 0, 0, 0, 0, 0, 0] =
      .ok (.doc [(.str [97], .dt 0 0 true)]) ∧
    (Value.dt 0 0 true ≠ .dt 0 0 false) ∧
    (dumps 10 (.doc [(.bytes [97], .bool true)]) none none).2 =
      .ok [9, 0, 0, 0, 8, 97, 0, 1, 0] ∧
    loads 20 [] [9, 0, 0, 0, 8, 97, 0, 1, 0] =
      .ok (.doc [(.str [97], .bool true)]) ∧
    ((Value.doc [(.str [97], .bool true)]) ≠ .doc [(.bytes [97], .bool true)]) := by
  refine ⟨rfl, rfl, ?_, rfl, rfl, ?_, rfl, rfl, ?_⟩ <;> (intro hq; cases hq)

/-- C1 (amended): for every mapping built only from the supported scalar
and container types (per `supported`: booleans, plain ints, doubles,
strings, byte strings, 16-byte UUIDs, timezone-aware timestamps with
epoch seconds within `±(2^31 - 1)` — the range on which the exact
datetime model provably matches the source's float arithmetic — None,
arrays, and documents with distinct non-marker string keys) that the
encoder accepts, decoding the encoding yields exactly the `narrow`ed
value: `Decimal` collapses to double precision, and timestamps collapse
to whole milliseconds by round-half-even — not truncation. -/
theorem c1_round_trip : ∀ (fuel : Nat) (kvs : PyDict) (st' : EncSt) (bs : List Nat),
    supported (.doc kvs) = true →
    dumps fuel (.doc kvs) none none = (st', .ok bs) →
    ∃ df : Nat, ∀ classes : Classes,
      decode_document df classes bs 0 false =
        .ok ((bs.length : Int), narrow (.doc kvs)) ∧
      loads df classes bs = .ok (narrow (.doc kvs)) := by
  intro fuel kvs st' bs hsup hdump
  have hd : encode_document fuel kvs ⟨[], []⟩ .null none none = (st', .ok bs) := hdump
  obtain ⟨D, hD⟩ := (round_trip_master fuel).2.1 kvs ⟨[], []⟩ st' bs .null hsup hd
  refine ⟨D, ?_⟩
  intro classes
  have hfact := hD classes [] [] D (le_refl D)
  rw [show (([] : List Nat) ++ bs ++ ([] : List Nat)) = bs from by simp] at hfact
  have e0 : ((([] : List Nat).length : Nat) : Int) = 0 := rfl
  rw [e0] at hfact
  rw [show ((0 : Int) + (bs.length : Int)) = (bs.length : Int) from by ring] at hfact
  refine ⟨hfact, ?_⟩
  unfold loads
  rw [hfact]
  rfl

theorem c1_round_trip_witness :
    supported (.doc [(PyKey.str [97], Value.bool true)]) = true ∧
    dumps 10 (.doc [(PyKey.str [97], Value.bool true)]) none none =
      (⟨[], []⟩, .ok [9, 0, 0, 0, 8, 97, 0, 1, 0]) ∧
    ∃ df : Nat, ∀ classes : Classes,
      decode_document df classes [9, 0, 0, 0, 8, 97, 0, 1, 0] 0 false =
        .ok ((([9, 0, 0, 0, 8, 97, 0, 1, 0] : List Nat).length : Int),
          narrow (.doc [(PyKey.str [97], Value.bool true)])) ∧
      loads df classes [9, 0, 0, 0, 8, 97, 0, 1, 0] =
        .ok (narrow (.doc [(PyKey.str [97], Value.bool true)])) :=
  ⟨rfl, rfl,
   c1_round_trip 10 [(PyKey.str [97], Value.bool true)] ⟨[], []⟩
     [9, 0, 0, 0, 8, 97, 0, 1, 0] rfl rfl⟩

/-! ## Small helper lemmas about the primitives -/

theorem packInt32_nonneg (i : Int) (bs : List Nat) (h : packInt32 i = some bs) (h0 : 0 ≤ i) :
    (fromLE bs : Int) = i := by
  unfold packInt32 at h
  split at h
  · rename_i hr
    cases h
    have : i % 4294967296 = i := by omega
    rw [this]
    rw [fromLE_leBytes 4 _ (by omega)]
    omega
  · exact absurd h (by simp)

/-! ## Claim theorems -/

/-- C8: encoding `{"key": False}` yields exactly
`b'\x0b\x00\x00\x00\x08key\x00\x00\x00'` and `{"key": True}` yields
`b'\x0b\x00\x00\x00\x08key\x00\x01\x00'`. -/
theorem c8_boolean_literals :
    (dumps 5 (.doc [(.str (pstr "key"), .bool false)]) none none).2 =
      .ok [0x0b, 0x00, 0x00, 0x00, 0x08, 0x6b, 0x65, 0x79, 0x00, 0x00, 0x00] ∧
    (dumps 5 (.doc [(.str (pstr "key"), .bool true)]) none none).2 =
      .ok [0x0b, 0x00, 0x00, 0x00, 0x08, 0x6b, 0x65, 0x79, 0x00, 0x01, 0x00] :=
  ⟨rfl, rfl⟩

/-- C2 counterexample: the claim says the integer `2^63 - 1` is encoded
with the unsigned-64-bit tag `0x11`; the dispatcher's first branch
(`0x7FFFFFFFFFFFFFFF >= value > 0x7fffffff`) captures it and emits the
signed-64-bit tag `0x12` instead. -/
theorem c2_counterexample :
    (encode_value 5 (.str (pstr "k")) (.int 9223372036854775807) ⟨[], []⟩
        none none).2.toOption.map List.head? = some (some 0x12) ∧
    ¬ (encode_value 5 (.str (pstr "k")) (.int 9223372036854775807) ⟨[], []⟩
        none none).2.toOption.map List.head? = some (some 0x11) :=
  ⟨rfl, by decide⟩

theorem ebind_okv {α β : Type} (a : α) (f : α → Except Err β) :
    ebind (.ok a) f = f a := rfl

theorem oelim_none {α β : Type} (e : Err) (f : α → Except Err β) :
    oelim (none : Option α) e f = .error e := rfl

theorem oelim_some {α β : Type} (a : α) (e : Err) (f : α → Except Err β) :
    oelim (some a) e f = f a := rfl

/-- C2 (amended): for any key whose cstring encoding succeeds, a plain
integer in `[-2^31, 2^31 - 1]` is encoded with tag `0x10` (int32); one
in `[-2^63, -2^31)` or `(2^31 - 1, 2^63 - 1]` with tag `0x12` (int64) —
so `2^63 - 1` gets `0x12`, not `0x11`; one in `(2^63 - 1, 2^64 - 1]`
with tag `0x11` (uint64); one above `2^64 - 1` raises the
integer-overflow error before the name is looked at; and one below
`-2^63` is still routed to the int64 branch, where `struct.pack "<q"`
raises `struct.error` after the name is encoded. -/
theorem c2_integer_boundaries (fuel : Nat) (name : PyKey) (st : EncSt)
    (i : Int) (cs : List Nat) (hcs : encode_cstring name = .ok cs) :
    (-2147483648 ≤ i ∧ i ≤ 2147483647 →
      (encode_value (fuel + 1) name (.int i) st none none).2 =
        .ok (0x10 :: cs ++ leBytes 4 (i % 4294967296).toNat)) ∧
    ((-9223372036854775808 ≤ i ∧ i < -2147483648) ∨
        (2147483647 < i ∧ i ≤ 9223372036854775807) →
      (encode_value (fuel + 1) name (.int i) st none none).2 =
        .ok (0x12 :: cs ++ leBytes 8 (i % 18446744073709551616).toNat)) ∧
    (9223372036854775807 < i ∧ i ≤ 18446744073709551615 →
      (encode_value (fuel + 1) name (.int i) st none none).2 =
        .ok (0x11 :: cs ++ leBytes 8 i.toNat)) ∧
    (18446744073709551615 < i →
      (encode_value (fuel + 1) name (.int i) st none none).2 =
        .error .integerOverflow) ∧
    (i < -9223372036854775808 →
      (encode_value (fuel + 1) name (.int i) st none none).2 =
        .error .structError) := by
  refine ⟨?_, ?_, ?_, ?_, ?_⟩
  · intro hr
    rw [encode_value_int]
    split_ifs with h1 h2 h3
    · exact absurd h1 (by omega)
    · exact absurd h2 (by omega)
    · exact absurd h2 (by omega)
    · show encode_int32_element name i = _
      unfold encode_int32_element
      rw [show packInt32 i = some (leBytes 4 (i % 4294967296).toNat) from by
        unfold packInt32; rw [if_pos (by omega)]]
      rw [oelim_some, hcs, ebind_okv]
  · intro hr
    rw [encode_value_int]
    split_ifs with h1 h2 h3
    · show encode_int64_element name i = _
      unfold encode_int64_element
      rw [hcs, ebind_okv]
      rw [show packInt64 i = some (leBytes 8 (i % 18446744073709551616).toNat)
        from by unfold packInt64; rw [if_pos (by omega)]]
      rw [oelim_some]
    · exact absurd h2 (by omega)
    · exact absurd h2 (by omega)
    · exact absurd (show i < -2147483648 ∨
        (9223372036854775807 ≥ i ∧ i > 2147483647) from by omega) h1
  · intro hr
    rw [encode_value_int]
    split_ifs with h1 h2 h3
    · exact absurd h1 (by omega)
    · exact absurd h3 (by omega)
    · show encode_uint64_element name i = _
      unfold encode_uint64_element
      rw [hcs, ebind_okv]
      rw [show packUInt64 i = some (leBytes 8 i.toNat) from by
        unfold packUInt64; rw [if_pos (by omega)]]
      rw [oelim_some]
    · exact absurd (show i > 9223372036854775807 from by omega) h2
  · intro hr
    rw [encode_value_int]
    split_ifs with h1 h2
    · exact absurd h1 (by omega)
    · rfl
    · exact absurd (show i > 9223372036854775807 from by omega) h2
  · intro hr
    rw [encode_value_int]
    split_ifs with h1 h2 h3
    · show encode_int64_element name i = _
      unfold encode_int64_element
      rw [hcs, ebind_okv]
      rw [show packInt64 i = none from by
        unfold packInt64; rw [if_neg (by omega)]]
      rw [oelim_none]
    · exact absurd h2 (by omega)
    · exact absurd h2 (by omega)
    · exact absurd (show i < -2147483648 ∨
        (9223372036854775807 ≥ i ∧ i > 2147483647) from by omega) h1

/-- Concrete instances of the C2 range theorem at the boundary integers
`2^31 - 1`, `2^63 - 1`, `-2^63`, `2^64 - 1`, `2^64` and `-2^63 - 1`. -/
theorem c2_integer_boundaries_witness :
    (encode_value 5 (.str (pstr "k")) (.int 2147483647) ⟨[], []⟩
        none none).2 =
      .ok (0x10 :: [107, 0] ++
        leBytes 4 ((2147483647 : Int) % 4294967296).toNat) ∧
    (encode_value 5 (.str (pstr "k")) (.int 9223372036854775807) ⟨[], []⟩
        none none).2 =
      .ok (0x12 :: [107, 0] ++
        leBytes 8 ((9223372036854775807 : Int) % 18446744073709551616).toNat) ∧
    (encode_value 5 (.str (pstr "k")) (.int (-9223372036854775808)) ⟨[], []⟩
        none none).2 =
      .ok (0x12 :: [107, 0] ++
        leBytes 8 ((-9223372036854775808 : Int) % 18446744073709551616).toNat) ∧
    (encode_value 5 (.str (pstr "k")) (.int 18446744073709551615) ⟨[], []⟩
        none none).2 =
      .ok (0x11 :: [107, 0] ++ leBytes 8 ((18446744073709551615 : Int)).toNat) ∧
    (encode_value 5 (.str (pstr "k")) (.int 18446744073709551616) ⟨[], []⟩
        none none).2 = .error .integerOverflow ∧
    (encode_value 5 (.str (pstr "k")) (.int (-9223372036854775809)) ⟨[], []⟩
        none none).2 = .error .structError := by
  refine ⟨?_, ?_, ?_, ?_, ?_, ?_⟩
  · exact (c2_integer_boundaries 4 (.str (pstr "k")) ⟨[], []⟩ 2147483647
      [107, 0] rfl).1 (by decide)
  · exact (c2_integer_boundaries 4 (.str (pstr "k")) ⟨[], []⟩
      9223372036854775807 [107, 0] rfl).2.1 (Or.inr (by decide))
  · exact (c2_integer_boundaries 4 (.str (pstr "k")) ⟨[], []⟩
      (-9223372036854775808) [107, 0] rfl).2.1 (Or.inl (by decide))
  · exact (c2_integer_boundaries 4 (.str (pstr "k")) ⟨[], []⟩
      18446744073709551615 [107, 0] rfl).2.2.1 (by decide)
  · exact (c2_integer_boundaries 4 (.str (pstr "k")) ⟨[], []⟩
      18446744073709551616 [107, 0] rfl).2.2.2.1 (by decide)
  · exact (c2_integer_boundaries 4 (.str (pstr "k")) ⟨[], []⟩
      (-9223372036854775809) [107, 0] rfl).2.2.2.2 (by decide)

theorem ebind_err {α β : Type} (e : Err) (f : α → Except Err β) :
    ebind (.error e) f = .error e := rfl

theorem olift_some (v : Value) (st : EncSt) (e : Err)
    (k : Value → EncSt × Except Err (List Nat)) :
    olift (some v) st e k = k v := rfl

theorem cstep_err (e : Err) (st : EncSt) (k : List Nat → EncSt × Except Err (List Nat)) :
    cstep (.error e) st k = (st, .error e) := rfl

theorem encode_cstring_nul (k : PyKey) (bv : List Nat) (h1 : pyKeyBytes k = .ok bv)
    (h2 : 0 ∈ bv) : encode_cstring k = .error .invalidName := by
  unfold encode_cstring
  rw [h1]
  show (if 0 ∈ bv then Except.error Err.invalidName else Except.ok (bv ++ [0])) = _
  rw [if_pos h2]

theorem stBind_err (p : EncSt × Except Err (List Nat))
    (k : List Nat → EncSt → EncSt × Except Err (List Nat)) (e : Err)
    (h : p.2 = .error e) : (stBind p k).2 = .error e := by
  obtain ⟨st, r⟩ := p
  cases r with
  | error e2 => cases h; rfl
  | ok b => cases h

theorem pack_e_list_err (p : EncSt × Except Err (List Nat)) (e : Err)
    (h : p.2 = .error e) : (pack_e_list p).2 = .error e := by
  obtain ⟨st, r⟩ := p
  cases r with
  | error e2 => cases h; rfl
  | ok b => cases h

/-- A successful dispatch of any value encodes the element name: every
branch of `encode_value` runs `encode_cstring` on the name and fails if
it fails. -/
theorem encode_value_cstring : ∀ (fuel : Nat) (name : PyKey) (v : Value) (st : EncSt)
    (g : Option GenFunc) (onu : Option OnUnknown) (st' : EncSt) (bs : List Nat),
    encode_value fuel name v st g onu = (st', .ok bs) →
      ∃ cs, encode_cstring name = .ok cs := by
  intro fuel
  induction fuel with
  | zero =>
      intro name v st g onu st' bs h
      rw [encode_value_zero] at h
      exact absurd h (by intro hq; cases hq)
  | succ fuel ih =>
      intro name v st g onu st' bs h
      cases v with
      | bool b =>
          rw [encode_value_bool] at h
          obtain ⟨cs, hcs, _⟩ := ebind_ok _ _ _ (pair_ok _ _ _ _ h)
          exact ⟨cs, hcs⟩
      | int i =>
          rw [encode_value_int] at h
          split_ifs at h
          · obtain ⟨cs, hcs, _⟩ := ebind_ok _ _ _ (pair_ok _ _ _ _ h)
            exact ⟨cs, hcs⟩
          · exact absurd (pair_ok _ _ _ _ h) (by intro hq; cases hq)
          · obtain ⟨cs, hcs, _⟩ := ebind_ok _ _ _ (pair_ok _ _ _ _ h)
            exact ⟨cs, hcs⟩
          · obtain ⟨bv, _, h3⟩ := oelim_ok _ _ _ _ (pair_ok _ _ _ _ h)
            obtain ⟨cs, hcs, _⟩ := ebind_ok _ _ _ h3
            exact ⟨cs, hcs⟩
      | i32 i =>
          rw [encode_value_i32] at h
          obtain ⟨bv, _, h3⟩ := oelim_ok _ _ _ _ (pair_ok _ _ _ _ h)
          obtain ⟨cs, hcs, _⟩ := ebind_ok _ _ _ h3
          exact ⟨cs, hcs⟩
      | i64 i =>
          rw [encode_value_i64] at h
          obtain ⟨cs, hcs, _⟩ := ebind_ok _ _ _ (pair_ok _ _ _ _ h)
          exact ⟨cs, hcs⟩
      | u64 i =>
          rw [encode_value_u64] at h
          obtain ⟨cs, hcs, _⟩ := ebind_ok _ _ _ (pair_ok _ _ _ _ h)
          exact ⟨cs, hcs⟩
      | double bits =>
          rw [encode_value_double] at h
          obtain ⟨cs, hcs, _⟩ := ebind_ok _ _ _ (pair_ok _ _ _ _ h)
          exact ⟨cs, hcs⟩
      | decimal bits =>
          rw [encode_value_decimal] at h
          obtain ⟨cs, hcs, _⟩ := ebind_ok _ _ _ (pair_ok _ _ _ _ h)
          exact ⟨cs, hcs⟩
      | str s =>
          rw [encode_value_str] at h
          obtain ⟨cs, hcs, _⟩ := ebind_ok _ _ _ (pair_ok _ _ _ _ h)
          exact ⟨cs, hcs⟩
      | bin b =>
          rw [encode_value_bin] at h
          obtain ⟨cs, hcs, _⟩ := ebind_ok _ _ _ (pair_ok _ _ _ _ h)
          exact ⟨cs, hcs⟩
      | uuid b =>
          rw [encode_value_uuid] at h
          obtain ⟨cs, hcs, _⟩ := ebind_ok _ _ _ (pair_ok _ _ _ _ h)
          exact ⟨cs, hcs⟩
      | dt secs usec tz =>
          rw [encode_value_dt] at h
          obtain ⟨cs, hcs, _⟩ := ebind_ok _ _ _ (pair_ok _ _ _ _ h)
          exact ⟨cs, hcs⟩
      | null =>
          rw [encode_value_null] at h
          obtain ⟨cs, hcs, _⟩ := ebind_ok _ _ _ (pair_ok _ _ _ _ h)
          exact ⟨cs, hcs⟩
      | doc kvs =>
          rw [encode_value_doc] at h
          cases fuel with
          | zero =>
              rw [encode_document_element_zero] at h
              exact absurd h (by intro hq; cases hq)
          | succ f2 =>
              rw [encode_document_element_unfold] at h
              obtain ⟨cs, hcs, _⟩ := cstep_ok _ _ _ _ _ h
              exact ⟨cs, hcs⟩
      | arr xs =>
          rw [encode_value_arr] at h
          cases fuel with
          | zero =>
              rw [encode_array_element_zero] at h
              exact absurd h (by intro hq; cases hq)
          | succ f2 =>
              rw [encode_array_element_unfold] at h
              obtain ⟨cs, hcs, _⟩ := cstep_ok _ _ _ _ _ h
              exact ⟨cs, hcs⟩
      | obj n s =>
          rw [encode_value_obj] at h
          cases fuel with
          | zero =>
              rw [encode_object_element_zero] at h
              exact absurd h (by intro hq; cases hq)
          | succ f2 =>
              rw [encode_object_element_unfold] at h
              obtain ⟨cs, hcs, _⟩ := cstep_ok _ _ _ _ _ h
              exact ⟨cs, hcs⟩
      | unknown u =>
          cases onu with
          | none =>
              rw [encode_value_unknown] at h
              exact absurd h (by intro hq; cases hq)
          | some hk =>
              rw [encode_value_unknown] at h
              exact ih name (hk u) st g (some hk) st' bs h

/-- A successful element loop encodes the name of every key it was asked
to iterate. -/
theorem encode_elems_cstring : ∀ (fuel : Nat) (obj : PyDict) (keys : List PyKey)
    (st : EncSt) (tp : Value) (g : Option GenFunc) (onu : Option OnUnknown)
    (st' : EncSt) (bs : List Nat),
    encode_elems fuel obj keys st tp g onu = (st', .ok bs) →
      ∀ k ∈ keys, ∃ cs, encode_cstring k = .ok cs := by
  intro fuel
  induction fuel with
  | zero =>
      intro obj keys st tp g onu st' bs h
      rw [encode_elems_zero] at h
      exact absurd h (by intro hq; cases hq)
  | succ fuel ih =>
      intro obj keys st tp g onu st' bs h k hk
      cases keys with
      | nil => cases hk
      | cons name rest =>
          rw [encode_elems_cons] at h
          obtain ⟨v, hv, h2⟩ := olift_ok _ _ _ _ _ _ h
          obtain ⟨st2, b1, hev, h3⟩ := stBind_ok _ _ _ _ h2
          cases hk with
          | head =>
              exact encode_value_cstring fuel _ v _ g onu st2 b1 hev
          | tail _ hk2 =>
              obtain ⟨b2, h4, _⟩ := stMap_ok _ _ _ _ h3
              exact ih obj rest _ tp g onu st' b2 h4 k hk2

/-- C5 counterexample: encoding a mapping with a NUL-bearing key does not
always fail with `InvalidName`.  An earlier element can raise
`IntegerOverflow` first; and even when the bad key is the only one, its
own value can fail first: an out-of-range `Int32` wrapper raises
`struct.error` (the pack runs before the name encoding) and an
unserializable value raises `UnknownSerializer` before any element
encoder runs.  The final conjuncts record that none of those errors is
`InvalidName`. -/
theorem c5_counterexample :
    (dumps 20 (.doc [(.str [122], .int 18446744073709551616), (.str [97, 0], .bool true)])
        none none).2 = .error .integerOverflow ∧
    (dumps 20 (.doc [(.str [97, 0], .i32 1099511627776)]) none none).2 =
      .error .structError ∧
    (dumps 20 (.doc [(.str [97, 0], .unknown 0)]) none none).2 =
      .error (.unknownSerializer (.str [97, 0]) (.unknown 0)) ∧
    (Except.error Err.integerOverflow : Except Err (List Nat)) ≠ .error .invalidName ∧
    (Except.error Err.structError : Except Err (List Nat)) ≠ .error .invalidName ∧
    (Except.error (Err.unknownSerializer (.str [97, 0]) (.unknown 0)) :
        Except Err (List Nat)) ≠ .error .invalidName :=
  ⟨rfl, rfl, rfl, by refine ⟨?_, ?_, ?_⟩ <;> (intro hq; cases hq)⟩

/-- C5 (amended): a key whose byte form contains NUL itself always fails
to encode with `InvalidName` (part 1), so a mapping containing such a key
never encodes successfully under the default key order (part 2); the
error reported for the whole document is `InvalidName` whenever the bad
key comes first and its value's own dispatch branch cannot fail before
the name is encoded (part 3). -/
theorem c5_name_rejection :
    (∀ (k : PyKey) (bv : List Nat), pyKeyBytes k = .ok bv → 0 ∈ bv →
        encode_cstring k = .error .invalidName) ∧
    (∀ (fuel : Nat) (obj : PyDict) (st : EncSt) (tp : Value) (onu : Option OnUnknown)
        (k : PyKey) (bv : List Nat) (st' : EncSt) (bs : List Nat),
        k ∈ obj.map Prod.fst → pyKeyBytes k = .ok bv → 0 ∈ bv →
        encode_document fuel obj st tp none onu ≠ (st', .ok bs)) ∧
    (∀ (fuel : Nat) (k : PyKey) (bv : List Nat) (v : Value) (rest : PyDict)
        (st : EncSt) (tp : Value) (onu : Option OnUnknown),
        pyKeyBytes k = .ok bv → 0 ∈ bv → c5_value_shape v →
        (encode_document (fuel + 4) ((k, v) :: rest) st tp none onu).2 =
          .error .invalidName) := by
  refine ⟨encode_cstring_nul, ?_, ?_⟩
  · intro fuel obj st tp onu k bv st' bs hk hkb hnul heq
    cases fuel with
    | zero =>
        rw [encode_document_zero] at heq
        exact absurd heq (by intro hq; cases hq)
    | succ fuel =>
        rw [encode_document_unfold_none] at heq
        obtain ⟨st1, e_list, l, helems, _, _, _⟩ := pack_e_list_ok _ _ _ heq
        obtain ⟨cs, hcs⟩ :=
          encode_elems_cstring fuel obj (obj.map Prod.fst) st tp none onu st1 e_list
            helems k hk
        rw [encode_cstring_nul k bv hkb hnul] at hcs
        exact Except.noConfusion hcs
  · intro fuel k bv v rest st tp onu hkb hnul hshape
    have hcs := encode_cstring_nul k bv hkb hnul
    rw [show fuel + 4 = fuel + 3 + 1 from rfl, encode_document_unfold_none]
    apply pack_e_list_err
    rw [show fuel + 3 = fuel + 2 + 1 from rfl]
    rw [show ((k, v) :: rest).map Prod.fst = k :: rest.map Prod.fst from rfl]
    rw [encode_elems_cons]
    rw [show pyDictGet ((k, v) :: rest) k = some v from by
      unfold pyDictGet; rw [if_pos rfl]]
    rw [olift_some]
    apply stBind_err
    rw [show fuel + 2 = fuel + 1 + 1 from rfl]
    cases v with
    | bool b =>
        rw [encode_value_bool]
        show encode_boolean_element k b = .error .invalidName
        unfold encode_boolean_element; rw [hcs, ebind_err]
    | int i =>
        replace hshape : i ≤ 18446744073709551615 := hshape
        rw [encode_value_int]
        split_ifs with h1 h2 h3
        · show encode_int64_element k i = .error .invalidName
          unfold encode_int64_element; rw [hcs, ebind_err]
        · exact absurd hshape (by omega)
        · show encode_uint64_element k i = .error .invalidName
          unfold encode_uint64_element; rw [hcs, ebind_err]
        · show encode_int32_element k i = .error .invalidName
          unfold encode_int32_element
          rw [show packInt32 i = some (leBytes 4 (i % 4294967296).toNat) from by
            unfold packInt32; rw [if_pos (by omega)]]
          rw [oelim_some]
          rw [hcs, ebind_err]
    | i32 i =>
        replace hshape : -2147483648 ≤ i ∧ i < 2147483648 := hshape
        rw [encode_value_i32]
        show encode_int32_element k i = .error .invalidName
        unfold encode_int32_element
        rw [show packInt32 i = some (leBytes 4 (i % 4294967296).toNat) from by
          unfold packInt32; rw [if_pos hshape]]
        rw [oelim_some]
        rw [hcs, ebind_err]
    | i64 i =>
        rw [encode_value_i64]
        show encode_int64_element k i = .error .invalidName
        unfold encode_int64_element; rw [hcs, ebind_err]
    | u64 i =>
        rw [encode_value_u64]
        show encode_uint64_element k i = .error .invalidName
        unfold encode_uint64_element; rw [hcs, ebind_err]
    | double bits =>
        rw [encode_value_double]
        show encode_double_element k bits = .error .invalidName
        unfold encode_double_element; rw [hcs, ebind_err]
    | decimal bits =>
        rw [encode_value_decimal]
        show encode_double_element k bits = .error .invalidName
        unfold encode_double_element; rw [hcs, ebind_err]
    | str s =>
        rw [encode_value_str]
        show encode_string_element k s = .error .invalidName
        unfold encode_string_element; rw [hcs, ebind_err]
    | bin b =>
        rw [encode_value_bin]
        show encode_binary_element k b 0 = .error .invalidName
        unfold encode_binary_element; rw [hcs, ebind_err]
    | uuid b =>
        rw [encode_value_uuid]
        show encode_binary_element k b 4 = .error .invalidName
        unfold encode_binary_element; rw [hcs, ebind_err]
    | dt secs usec tz =>
        rw [encode_value_dt]
        show encode_utc_datetime_element k secs usec tz = .error .invalidName
        unfold encode_utc_datetime_element; rw [hcs, ebind_err]
    | null =>
        rw [encode_value_null]
        show encode_none_element k = .error .invalidName
        unfold encode_none_element; rw [hcs, ebind_err]
    | doc kvs =>
        rw [encode_value_doc, encode_document_element_unfold, hcs, cstep_err]
    | arr xs =>
        rw [encode_value_arr, encode_array_element_unfold, hcs, cstep_err]
    | obj n s =>
        rw [encode_value_obj, encode_object_element_unfold, hcs, cstep_err]
    | unknown u => exact hshape.elim

theorem c5_name_rejection_witness :
    encode_cstring (.str [97, 0]) = .error .invalidName ∧
    encode_document 10 [(.str [97, 0], .bool true)] ⟨[], []⟩ .null none none ≠
      (⟨[], []⟩, .ok []) ∧
    (encode_document 10 [(.str [97, 0], .bool true)] ⟨[], []⟩ .null none none).2 =
      .error .invalidName :=
  ⟨c5_name_rejection.1 (.str [97, 0]) [97, 0] rfl (by decide),
   c5_name_rejection.2.1 10 [(.str [97, 0], .bool true)] ⟨[], []⟩ .null none
     (.str [97, 0]) [97, 0] ⟨[], []⟩ [] (by decide) rfl (by decide),
   c5_name_rejection.2.2 6 (.str [97, 0]) [97, 0] (.bool true) [] ⟨[], []⟩ .null none
     rfl (by decide) True.intro⟩

/-- The joint stack/hook invariant of the encoder family: every function
restores the traversal stack on success (each element pushes one frame
and pops it right after), and every generator-hook invocation it logs is
either inherited from the caller or records the container reached by an
ancestor chain relative to the incoming stack. -/
theorem stack_hook_inv : ∀ fuel : Nat,
    (∀ name v st g onu st' r, encode_value fuel name v st g onu = (st', r) →
      (∀ bs, r = .ok bs → st'.stack = st.stack) ∧
      (∀ e ∈ st'.calls, e ∈ st.calls ∨
        ∃ fr tgt, e = (tgt, st.stack ++ fr) ∧ VAnc onu v fr tgt)) ∧
    (∀ obj st tp g onu st' r, encode_document fuel obj st tp g onu = (st', r) →
      (∀ bs, r = .ok bs → st'.stack = st.stack) ∧
      (∀ e ∈ st'.calls, e ∈ st.calls ∨
        ∃ fr tgt, e = (tgt, st.stack ++ fr) ∧ DAnc onu tp obj fr tgt)) ∧
    (∀ obj keys st tp g onu st' r, encode_elems fuel obj keys st tp g onu = (st', r) →
      (∀ bs, r = .ok bs → st'.stack = st.stack) ∧
      (∀ e ∈ st'.calls, e ∈ st.calls ∨
        ∃ k v fr tgt, pyDictGet obj k = some v ∧
          e = (tgt, st.stack ++ (⟨pyOr tp (.doc obj), .key k⟩ :: fr)) ∧
          VAnc onu v fr tgt)) ∧
    (∀ xs st tp g onu st' r, encode_array fuel xs st tp g onu = (st', r) →
      (∀ bs, r = .ok bs → st'.stack = st.stack) ∧
      (∀ e ∈ st'.calls, e ∈ st.calls ∨
        ∃ fr tgt, e = (tgt, st.stack ++ fr) ∧ AAnc onu tp xs fr tgt)) ∧
    (∀ array i items st tp g onu st' r,
        encode_arr_elems fuel array i items st tp g onu = (st', r) →
      (∀ bs, r = .ok bs → st'.stack = st.stack) ∧
      (∀ e ∈ st'.calls, e ∈ st.calls ∨
        ∃ j v fr tgt, items.get? j = some v ∧
          e = (tgt, st.stack ++ (⟨pyOr tp (.arr array), .idx (i + j)⟩ :: fr)) ∧
          VAnc onu v fr tgt)) := by
  intro fuel
  induction fuel using Nat.strong_induction_on with
  | _ fuel ih =>
  refine ⟨?_, ?_, ?_, ?_, ?_⟩
  -- encode_value
  · intro name v st g onu st' r h
    cases fuel with
    | zero =>
        rw [encode_value_zero] at h
        injection h with h1 h2; subst h1; subst h2
        exact ⟨fun bs hbs => Except.noConfusion hbs, fun e he => .inl he⟩
    | succ f =>
        cases v with
        | bool b =>
            rw [encode_value_bool] at h
            injection h with h1 h2; subst h1
            exact ⟨fun _ _ => rfl, fun e he => .inl he⟩
        | int i =>
            rw [encode_value_int] at h
            split_ifs at h <;>
              (injection h with h1 h2; subst h1; exact ⟨fun _ _ => rfl, fun e he => .inl he⟩)
        | i32 i =>
            rw [encode_value_i32] at h
            injection h with h1 h2; subst h1
            exact ⟨fun _ _ => rfl, fun e he => .inl he⟩
        | i64 i =>
            rw [encode_value_i64] at h
            injection h with h1 h2; subst h1
            exact ⟨fun _ _ => rfl, fun e he => .inl he⟩
        | u64 i =>
            rw [encode_value_u64] at h
            injection h with h1 h2; subst h1
            exact ⟨fun _ _ => rfl, fun e he => .inl he⟩
        | double bits =>
            rw [encode_value_double] at h
            injection h with h1 h2; subst h1
            exact ⟨fun _ _ => rfl, fun e he => .inl he⟩
        | decimal bits =>
            rw [encode_value_decimal] at h
            injection h with h1 h2; subst h1
            exact ⟨fun _ _ => rfl, fun e he => .inl he⟩
        | str s =>
            rw [encode_value_str] at h
            injection h with h1 h2; subst h1
            exact ⟨fun _ _ => rfl, fun e he => .inl he⟩
        | bin b =>
            rw [encode_value_bin] at h
            injection h with h1 h2; subst h1
            exact ⟨fun _ _ => rfl, fun e he => .inl he⟩
        | uuid b =>
            rw [encode_value_uuid] at h
            injection h with h1 h2; subst h1
            exact ⟨fun _ _ => rfl, fun e he => .inl he⟩
        | dt secs usec tz =>
            rw [encode_value_dt] at h
            injection h with h1 h2; subst h1
            exact ⟨fun _ _ => rfl, fun e he => .inl he⟩
        | null =>
            rw [encode_value_null] at h
            injection h with h1 h2; subst h1
            exact ⟨fun _ _ => rfl, fun e he => .inl he⟩
        | doc kvs =>
            rw [encode_value_doc] at h
            cases f with
            | zero =>
                rw [encode_document_element_zero] at h
                injection h with h1 h2; subst h1; subst h2
                exact ⟨fun bs hbs => Except.noConfusion hbs, fun e he => .inl he⟩
            | succ f2 =>
                rw [encode_document_element_unfold] at h
                rcases hc : encode_cstring name with e0 | cs
                · rw [hc] at h
                  replace h : (st, (Except.error e0 : Except Err (List Nat))) = (st', r) := h
                  injection h with h1 h2; subst h1; subst h2
                  exact ⟨fun bs hbs => Except.noConfusion hbs, fun e he => .inl he⟩
                · rw [hc] at h
                  replace h : stMap (fun bs => 0x03 :: cs ++ bs)
                      (encode_document f2 kvs st .null g onu) = (st', r) := h
                  rcases hd : encode_document f2 kvs st .null g onu with ⟨st2, r2⟩
                  rw [hd] at h
                  replace h : (st2, r2.map (fun bs => 0x03 :: cs ++ bs)) = (st', r) := h
                  injection h with h1 h2; subst h1; subst h2
                  have hD := (ih f2 (by omega)).2.1 kvs st .null g onu st2 r2 hd
                  refine ⟨?_, ?_⟩
                  · intro bs hbs
                    cases r2 with
                    | error e0 => exact Except.noConfusion hbs
                    | ok b2 => exact hD.1 b2 rfl
                  · intro e he
                    rcases hD.2 e he with hin | ⟨fr, tgt, hsh, hanc⟩
                    · exact .inl hin
                    · exact .inr ⟨fr, tgt, hsh, VAnc.doc _ _ _ _ hanc⟩
        | arr xs =>
            rw [encode_value_arr] at h
            cases f with
            | zero =>
                rw [encode_array_element_zero] at h
                injection h with h1 h2; subst h1; subst h2
                exact ⟨fun bs hbs => Except.noConfusion hbs, fun e he => .inl he⟩
            | succ f2 =>
                rw [encode_array_element_unfold] at h
                rcases hc : encode_cstring name with e0 | cs
                · rw [hc] at h
                  replace h : (st, (Except.error e0 : Except Err (List Nat))) = (st', r) := h
                  injection h with h1 h2; subst h1; subst h2
                  exact ⟨fun bs hbs => Except.noConfusion hbs, fun e he => .inl he⟩
                · rw [hc] at h
                  replace h : stMap (fun bs => 0x04 :: cs ++ bs)
                      (encode_array f2 xs st .null g onu) = (st', r) := h
                  rcases hd : encode_array f2 xs st .null g onu with ⟨st2, r2⟩
                  rw [hd] at h
                  replace h : (st2, r2.map (fun bs => 0x04 :: cs ++ bs)) = (st', r) := h
                  injection h with h1 h2; subst h1; subst h2
                  have hA := (ih f2 (by omega)).2.2.2.1 xs st .null g onu st2 r2 hd
                  refine ⟨?_, ?_⟩
                  · intro bs hbs
                    cases r2 with
                    | error e0 => exact Except.noConfusion hbs
                    | ok b2 => exact hA.1 b2 rfl
                  · intro e he
                    rcases hA.2 e he with hin | ⟨fr, tgt, hsh, hanc⟩
                    · exact .inl hin
                    · exact .inr ⟨fr, tgt, hsh, VAnc.arr _ _ _ _ hanc⟩
        | obj n s =>
            rw [encode_value_obj] at h
            cases f with
            | zero =>
                rw [encode_object_element_zero] at h
                injection h with h1 h2; subst h1; subst h2
                exact ⟨fun bs hbs => Except.noConfusion hbs, fun e he => .inl he⟩
            | succ f2 =>
                rw [encode_object_element_unfold] at h
                rcases hc : encode_cstring name with e0 | cs
                · rw [hc] at h
                  replace h : (st, (Except.error e0 : Except Err (List Nat))) = (st', r) := h
                  injection h with h1 h2; subst h1; subst h2
                  exact ⟨fun bs hbs => Except.noConfusion hbs, fun e he => .inl he⟩
                · rw [hc] at h
                  replace h : stMap (fun bs => 0x03 :: cs ++ bs)
                      (encode_object f2 n s st g onu) = (st', r) := h
                  cases f2 with
                  | zero =>
                      rw [encode_object_zero] at h
                      replace h : (st, ((Except.error .fuelOut :
                          Except Err (List Nat)).map (fun bs => 0x03 :: cs ++ bs))) =
                          (st', r) := h
                      injection h with h1 h2; subst h1; subst h2
                      exact ⟨fun bs hbs => Except.noConfusion hbs, fun e he => .inl he⟩
                  | succ f3 =>
                      rw [encode_object_unfold] at h
                      rcases hd : encode_document f3 (pyInsert s CLASSNAME_KEY (.str n))
                          st (.obj n s) g onu with ⟨st2, r2⟩
                      rw [hd] at h
                      replace h : (st2, r2.map (fun bs => 0x03 :: cs ++ bs)) = (st', r) := h
                      injection h with h1 h2; subst h1; subst h2
                      have hD := (ih f3 (by omega)).2.1 (pyInsert s CLASSNAME_KEY (.str n))
                        st (.obj n s) g onu st2 r2 hd
                      refine ⟨?_, ?_⟩
                      · intro bs hbs
                        cases r2 with
                        | error e0 => exact Except.noConfusion hbs
                        | ok b2 => exact hD.1 b2 rfl
                      · intro e he
                        rcases hD.2 e he with hin | ⟨fr, tgt, hsh, hanc⟩
                        · exact .inl hin
                        · exact .inr ⟨fr, tgt, hsh, VAnc.obj _ _ _ _ _ hanc⟩
        | unknown u =>
            rw [encode_value_unknown] at h
            cases onu with
            | none =>
                replace h : (st, (Except.error (.unknownSerializer name (.unknown u)) :
                    Except Err (List Nat))) = (st', r) := h
                injection h with h1 h2; subst h1; subst h2
                exact ⟨fun bs hbs => Except.noConfusion hbs, fun e he => .inl he⟩
            | some hk =>
                replace h : encode_value f name (hk u) st g (some hk) = (st', r) := h
                have hV := (ih f (by omega)).1 name (hk u) st g (some hk) st' r h
                refine ⟨hV.1, fun e he => ?_⟩
                rcases hV.2 e he with hin | ⟨fr, tgt, hsh, hanc⟩
                · exact .inl hin
                · exact .inr ⟨fr, tgt, hsh, VAnc.unk hk u fr tgt hanc⟩
  -- encode_document
  · intro obj st tp g onu st' r h
    cases fuel with
    | zero =>
        rw [encode_document_zero] at h
        injection h with h1 h2; subst h1; subst h2
        exact ⟨fun bs hbs => Except.noConfusion hbs, fun e he => .inl he⟩
    | succ f =>
        cases g with
        | none =>
            rw [encode_document_unfold_none] at h
            rcases he : encode_elems f obj (obj.map Prod.fst) st tp none onu with ⟨st1, r1⟩
            rw [he] at h
            have hE := (ih f (by omega)).2.2.1 obj (obj.map Prod.fst) st tp none onu
              st1 r1 he
            cases r1 with
            | error e0 =>
                replace h : (st1, (Except.error e0 : Except Err (List Nat))) = (st', r) := h
                injection h with h1 h2; subst h1; subst h2
                refine ⟨fun bs hbs => Except.noConfusion hbs, fun e hein => ?_⟩
                rcases hE.2 e hein with hin | ⟨k, v, fr, tgt, hget, hsh, hanc⟩
                · exact .inl hin
                · exact .inr ⟨_, tgt, hsh, DAnc.step _ _ _ _ _ _ _ hget hanc⟩
            | ok e_list =>
                replace h : pack_with st1 e_list
                    (packInt32 ((e_list.length : Int) + 4 + 1)) = (st', r) := h
                rcases hp : packInt32 ((e_list.length : Int) + 4 + 1) with _ | l
                · rw [hp] at h
                  replace h : (st1, (Except.error .structError :
                      Except Err (List Nat))) = (st', r) := h
                  injection h with h1 h2; subst h1; subst h2
                  refine ⟨fun bs hbs => Except.noConfusion hbs, fun e hein => ?_⟩
                  rcases hE.2 e hein with hin | ⟨k, v, fr, tgt, hget, hsh, hanc⟩
                  · exact .inl hin
                  · exact .inr ⟨_, tgt, hsh, DAnc.step _ _ _ _ _ _ _ hget hanc⟩
                · rw [hp] at h
                  replace h : (st1, (Except.ok (l ++ e_list ++ [0]) :
                      Except Err (List Nat))) = (st', r) := h
                  injection h with h1 h2; subst h1; subst h2
                  refine ⟨fun bs _ => hE.1 e_list rfl, fun e hein => ?_⟩
                  rcases hE.2 e hein with hin | ⟨k, v, fr, tgt, hget, hsh, hanc⟩
                  · exact .inl hin
                  · exact .inr ⟨_, tgt, hsh, DAnc.step _ _ _ _ _ _ _ hget hanc⟩
        | some gf =>
            rw [encode_document_unfold_some] at h
            rcases he : encode_elems f obj (gf obj st.stack)
                {st with calls := st.calls ++ [(obj, st.stack)]} tp (some gf) onu
              with ⟨st1, r1⟩
            rw [he] at h
            have hE := (ih f (by omega)).2.2.1 obj (gf obj st.stack)
              {st with calls := st.calls ++ [(obj, st.stack)]} tp (some gf) onu st1 r1 he
            have hcalls : ∀ e ∈ st1.calls, e ∈ st.calls ∨
                ∃ fr tgt, e = (tgt, st.stack ++ fr) ∧ DAnc onu tp obj fr tgt := by
              intro e hein
              rcases hE.2 e hein with hin | ⟨k, v, fr, tgt, hget, hsh, hanc⟩
              · rcases List.mem_append.mp hin with hold | hnew
                · exact .inl hold
                · refine .inr ⟨[], obj, ?_, DAnc.here onu tp obj⟩
                  rw [List.append_nil]
                  exact List.mem_singleton.mp hnew
              · exact .inr ⟨_, tgt, hsh, DAnc.step _ _ _ _ _ _ _ hget hanc⟩
            cases r1 with
            | error e0 =>
                replace h : (st1, (Except.error e0 : Except Err (List Nat))) = (st', r) := h
                injection h with h1 h2; subst h1; subst h2
                exact ⟨fun bs hbs => Except.noConfusion hbs, hcalls⟩
            | ok e_list =>
                replace h : pack_with st1 e_list
                    (packInt32 ((e_list.length : Int) + 4 + 1)) = (st', r) := h
                rcases hp : packInt32 ((e_list.length : Int) + 4 + 1) with _ | l
                · rw [hp] at h
                  replace h : (st1, (Except.error .structError :
                      Except Err (List Nat))) = (st', r) := h
                  injection h with h1 h2; subst h1; subst h2
                  exact ⟨fun bs hbs => Except.noConfusion hbs, hcalls⟩
                · rw [hp] at h
                  replace h : (st1, (Except.ok (l ++ e_list ++ [0]) :
                      Except Err (List Nat))) = (st', r) := h
                  injection h with h1 h2; subst h1; subst h2
                  exact ⟨fun bs _ => hE.1 e_list rfl, hcalls⟩
  -- encode_elems
  · intro obj keys st tp g onu st' r h
    cases fuel with
    | zero =>
        rw [encode_elems_zero] at h
        injection h with h1 h2; subst h1; subst h2
        exact ⟨fun bs hbs => Except.noConfusion hbs, fun e he => .inl he⟩
    | succ f =>
        cases keys with
        | nil =>
            rw [encode_elems_nil] at h
            injection h with h1 h2; subst h1
            exact ⟨fun _ _ => rfl, fun e he => .inl he⟩
        | cons k rest =>
            rw [encode_elems_cons] at h
            rcases hg : pyDictGet obj k with _ | v
            · rw [hg] at h
              replace h : (st, (Except.error (.keyError k) :
                  Except Err (List Nat))) = (st', r) := h
              injection h with h1 h2; subst h1; subst h2
              exact ⟨fun bs hbs => Except.noConfusion hbs, fun e he => .inl he⟩
            · rw [hg, olift_some] at h
              replace h : stBind (encode_value f k v
                  {st with stack := st.stack ++ [⟨pyOr tp (.doc obj), .key k⟩]} g onu)
                  (fun bs st2 =>
                    stMap (fun bs2 => bs ++ bs2)
                      (encode_elems f obj rest {st2 with stack := st2.stack.dropLast}
                        tp g onu)) = (st', r) := h
              rcases hev : encode_value f k v
                  {st with stack := st.stack ++ [⟨pyOr tp (.doc obj), .key k⟩]} g onu
                with ⟨st2, r2⟩
              rw [hev] at h
              have hV := (ih f (by omega)).1 k v
                {st with stack := st.stack ++ [⟨pyOr tp (.doc obj), .key k⟩]} g onu
                st2 r2 hev
              cases r2 with
              | error e0 =>
                  replace h : (st2, (Except.error e0 : Except Err (List Nat))) = (st', r) := h
                  injection h with h1 h2; subst h1; subst h2
                  refine ⟨fun bs hbs => Except.noConfusion hbs, fun e hein => ?_⟩
                  rcases hV.2 e hein with hin | ⟨fr, tgt, hsh, hanc⟩
                  · exact .inl hin
                  · refine .inr ⟨k, v, fr, tgt, hg, ?_, hanc⟩
                    rw [hsh]
                    simp only [List.append_assoc, List.singleton_append]
              | ok b1 =>
                  replace h : stMap (fun bs2 => b1 ++ bs2)
                      (encode_elems f obj rest {st2 with stack := st2.stack.dropLast}
                        tp g onu) = (st', r) := h
                  rcases hrest : encode_elems f obj rest
                      {st2 with stack := st2.stack.dropLast} tp g onu with ⟨st3, r3⟩
                  rw [hrest] at h
                  replace h : (st3, r3.map (fun bs2 => b1 ++ bs2)) = (st', r) := h
                  injection h with h1 h2; subst h1; subst h2
                  have hstk2 : st2.stack =
                      st.stack ++ [⟨pyOr tp (.doc obj), .key k⟩] := hV.1 b1 rfl
                  have hstk3 : ({st2 with stack := st2.stack.dropLast} : EncSt).stack =
                      st.stack := by
                    show st2.stack.dropLast = st.stack
                    rw [hstk2]
                    exact List.dropLast_concat
                  have hR := (ih f (by omega)).2.2.1 obj rest
                    {st2 with stack := st2.stack.dropLast} tp g onu st3 r3 hrest
                  refine ⟨?_, ?_⟩
                  · intro bs hbs
                    cases r3 with
                    | error e0 => exact Except.noConfusion hbs
                    | ok b3 => rw [hR.1 b3 rfl]; exact hstk3
                  · intro e hein
                    rcases hR.2 e hein with hin | ⟨k2, v2, fr, tgt, hget2, hsh2, hanc2⟩
                    · rcases hV.2 e hin with hin2 | ⟨fr, tgt, hsh, hanc⟩
                      · exact .inl hin2
                      · refine .inr ⟨k, v, fr, tgt, hg, ?_, hanc⟩
                        rw [hsh]
                        simp only [List.append_assoc, List.singleton_append]
                    · refine .inr ⟨k2, v2, fr, tgt, hget2, ?_, hanc2⟩
                      rw [hsh2, hstk3]
  -- encode_array
  · intro xs st tp g onu st' r h
    cases fuel with
    | zero =>
        rw [encode_array_zero] at h
        injection h with h1 h2; subst h1; subst h2
        exact ⟨fun bs hbs => Except.noConfusion hbs, fun e he => .inl he⟩
    | succ f =>
        rw [encode_array_unfold] at h
        rcases he : encode_arr_elems f xs 0 xs st tp g onu with ⟨st1, r1⟩
        rw [he] at h
        have hE := (ih f (by omega)).2.2.2.2 xs 0 xs st tp g onu st1 r1 he
        have hcalls : ∀ e ∈ st1.calls, e ∈ st.calls ∨
            ∃ fr tgt, e = (tgt, st.stack ++ fr) ∧ AAnc onu tp xs fr tgt := by
          intro e hein
          rcases hE.2 e hein with hin | ⟨j, v, fr, tgt, hget, hsh, hanc⟩
          · exact .inl hin
          · exact .inr ⟨_, tgt, hsh, AAnc.step onu tp xs (0 + j) v fr tgt
              (by rw [Nat.zero_add]; exact hget) hanc⟩
        cases r1 with
        | error e0 =>
            replace h : (st1, (Except.error e0 : Except Err (List Nat))) = (st', r) := h
            injection h with h1 h2; subst h1; subst h2
            exact ⟨fun bs hbs => Except.noConfusion hbs, hcalls⟩
        | ok e_list =>
            replace h : pack_with st1 e_list
                (packInt32 ((e_list.length : Int) + 4 + 1)) = (st', r) := h
            rcases hp : packInt32 ((e_list.length : Int) + 4 + 1) with _ | l
            · rw [hp] at h
              replace h : (st1, (Except.error .structError :
                  Except Err (List Nat))) = (st', r) := h
              injection h with h1 h2; subst h1; subst h2
              exact ⟨fun bs hbs => Except.noConfusion hbs, hcalls⟩
            · rw [hp] at h
              replace h : (st1, (Except.ok (l ++ e_list ++ [0]) :
                  Except Err (List Nat))) = (st', r) := h
              injection h with h1 h2; subst h1; subst h2
              exact ⟨fun bs _ => hE.1 e_list rfl, hcalls⟩
  -- encode_arr_elems
  · intro array i items st tp g onu st' r h
    cases fuel with
    | zero =>
        rw [encode_arr_elems_zero] at h
        injection h with h1 h2; subst h1; subst h2
        exact ⟨fun bs hbs => Except.noConfusion hbs, fun e he => .inl he⟩
    | succ f =>
        cases items with
        | nil =>
            rw [encode_arr_elems_nil] at h
            injection h with h1 h2; subst h1
            exact ⟨fun _ _ => rfl, fun e he => .inl he⟩
        | cons v rest =>
            rw [encode_arr_elems_cons] at h
            rcases hev : encode_value f (.str (natToDecStr i)) v
                {st with stack := st.stack ++ [⟨pyOr tp (.arr array), .idx i⟩]} g onu
              with ⟨st2, r2⟩
            rw [hev] at h
            have hV := (ih f (by omega)).1 (.str (natToDecStr i)) v
              {st with stack := st.stack ++ [⟨pyOr tp (.arr array), .idx i⟩]} g onu
              st2 r2 hev
            cases r2 with
            | error e0 =>
                replace h : (st2, (Except.error e0 : Except Err (List Nat))) = (st', r) := h
                injection h with h1 h2; subst h1; subst h2
                refine ⟨fun bs hbs => Except.noConfusion hbs, fun e hein => ?_⟩
                rcases hV.2 e hein with hin | ⟨fr, tgt, hsh, hanc⟩
                · exact .inl hin
                · refine .inr ⟨0, v, fr, tgt, rfl, ?_, hanc⟩
                  rw [hsh]
                  simp only [List.append_assoc, List.singleton_append, Nat.add_zero]
            | ok b1 =>
                replace h : stMap (fun bs2 => b1 ++ bs2)
                    (encode_arr_elems f array (i + 1) rest
                      {st2 with stack := st2.stack.dropLast} tp g onu) = (st', r) := h
                rcases hrest : encode_arr_elems f array (i + 1) rest
                    {st2 with stack := st2.stack.dropLast} tp g onu with ⟨st3, r3⟩
                rw [hrest] at h
                replace h : (st3, r3.map (fun bs2 => b1 ++ bs2)) = (st', r) := h
                injection h with h1 h2; subst h1; subst h2
                have hstk2 : st2.stack =
                    st.stack ++ [⟨pyOr tp (.arr array), .idx i⟩] := hV.1 b1 rfl
                have hstk3 : ({st2 with stack := st2.stack.dropLast} : EncSt).stack =
                    st.stack := by
                  show st2.stack.dropLast = st.stack
                  rw [hstk2]
                  exact List.dropLast_concat
                have hR := (ih f (by omega)).2.2.2.2 array (i + 1) rest
                  {st2 with stack := st2.stack.dropLast} tp g onu st3 r3 hrest
                refine ⟨?_, ?_⟩
                · intro bs hbs
                  cases r3 with
                  | error e0 => exact Except.noConfusion hbs
                  | ok b3 => rw [hR.1 b3 rfl]; exact hstk3
                · intro e hein
                  rcases hR.2 e hein with hin | ⟨j2, v2, fr, tgt, hget2, hsh2, hanc2⟩
                  · rcases hV.2 e hin with hin2 | ⟨fr, tgt, hsh, hanc⟩
                    · exact .inl hin2
                    · refine .inr ⟨0, v, fr, tgt, rfl, ?_, hanc⟩
                      rw [hsh]
                      simp only [List.append_assoc, List.singleton_append, Nat.add_zero]
                  · refine .inr ⟨j2 + 1, v2, fr, tgt, hget2, ?_, hanc2⟩
                    rw [hsh2, hstk3, show i + 1 + j2 = i + (j2 + 1) from by omega]

/-- C10: every document and array encode call that returns normally
restores the traversal stack to exactly its pre-call contents (each
element pushes one frame before being encoded and pops it right after);
and every generator-hook invocation a document encode logs — whether the
call completes normally or by raising — is either inherited from the
caller or records the hooked container together with the incoming stack
extended by precisely the chain of ancestor `(container, key)` frames
leading to that container. -/
theorem c10_traversal_stack :
    (∀ fuel obj st tp g onu st' bs,
        encode_document fuel obj st tp g onu = (st', .ok bs) → st'.stack = st.stack) ∧
    (∀ fuel xs st tp g onu st' bs,
        encode_array fuel xs st tp g onu = (st', .ok bs) → st'.stack = st.stack) ∧
    (∀ fuel obj st tp g onu st' r, encode_document fuel obj st tp g onu = (st', r) →
      ∀ e ∈ st'.calls, e ∈ st.calls ∨
        ∃ fr tgt, e = (tgt, st.stack ++ fr) ∧ DAnc onu tp obj fr tgt) := by
  refine ⟨?_, ?_, ?_⟩
  · intro fuel obj st tp g onu st' bs h
    exact ((stack_hook_inv fuel).2.1 obj st tp g onu st' (.ok bs) h).1 bs rfl
  · intro fuel xs st tp g onu st' bs h
    exact ((stack_hook_inv fuel).2.2.2.1 xs st tp g onu st' (.ok bs) h).1 bs rfl
  · intro fuel obj st tp g onu st' r h
    exact ((stack_hook_inv fuel).2.1 obj st tp g onu st' r h).2

theorem c10_traversal_stack_witness :
    encode_document 10 [(PyKey.str [97], Value.bool true)] ⟨[], []⟩ .null none none =
      (⟨[], []⟩, .ok [9, 0, 0, 0, 8, 97, 0, 1, 0]) ∧
    ((⟨[], []⟩ : EncSt).stack = (⟨[], []⟩ : EncSt).stack ∧
     (⟨[], []⟩ : EncSt).stack = (⟨[], []⟩ : EncSt).stack) ∧
    (([(PyKey.str [97], Value.bool true)], ([] : List TraversalStep)) ∈
        ([] : List (PyDict × List TraversalStep)) ∨
      ∃ fr tgt,
        (([(PyKey.str [97], Value.bool true)], ([] : List TraversalStep)) :
            PyDict × List TraversalStep) =
          (tgt, ([] : List TraversalStep) ++ fr) ∧
        DAnc none .null [(PyKey.str [97], Value.bool true)] fr tgt) :=
  ⟨rfl,
   ⟨c10_traversal_stack.1 10 [(PyKey.str [97], Value.bool true)] ⟨[], []⟩ .null none none
      ⟨[], []⟩ [9, 0, 0, 0, 8, 97, 0, 1, 0] rfl,
    c10_traversal_stack.2.1 10 [Value.bool true] ⟨[], []⟩ .null none none
      ⟨[], []⟩ [9, 0, 0, 0, 8, 48, 0, 1, 0] rfl⟩,
   (c10_traversal_stack.2.2 10 [(PyKey.str [97], Value.bool true)] ⟨[], []⟩ .null
      (some (fun obj _ => obj.map Prod.fst)) none
      ⟨[], [([(PyKey.str [97], Value.bool true)], [])]⟩
      (.ok [9, 0, 0, 0, 8, 97, 0, 1, 0]) rfl)
     ([(PyKey.str [97], Value.bool true)], []) (List.mem_cons_self _ _)⟩

/-- C4: any buffer whose byte at position `declared length - 1` exists and
is not NUL fails `decode_document` with the malformed-document error
before any element is decoded, so no partial result is ever returned. -/
theorem c4_malformed (data : List Nat) (classes : Classes) (fuel : Nat) (b : Nat)
    (hlen : (pySlice data 0 4).length = 4)
    (hb : pyIndexGet data (sgn32 (pySlice data 0 4) - 1) = some b)
    (hnz : b ≠ 0) :
    decode_document (fuel + 1) classes data 0 false = .error .malformedDocument := by
  rw [decode_document]
  simp only [zero_add] at hlen hb ⊢
  rw [if_pos hlen, hb]
  simp [hnz]

/-- C4 witness: the 5-byte buffer `b'\x05\x00\x00\x00\x07'` declares
length 5 and ends in `0x07`. -/
theorem c4_malformed_witness :
    decode_document 5 [] [5, 0, 0, 0, 7] 0 false = .error .malformedDocument :=
  c4_malformed [5, 0, 0, 0, 7] [] 4 7 rfl rfl (by decide)

theorem hexBytes_length (bs : List Nat) : (hexBytes bs).length = 2 * bs.length := by
  induction bs with
  | nil => rfl
  | cons b tl ih => simp [hexBytes, ih]; ring

/-- C9: decoding an element with the object-identifier tag `0x07` yields
the hex expansion (`b2a_hex`, two ASCII hex characters per byte) of the
12 payload bytes, and that hex expansion is never the raw 12 bytes
themselves (it has 24 bytes). -/
theorem c9_object_id_hex :
    (∀ (fuel : Nat) (classes : Classes) (data : List Nat) (base : Int),
      decode_value (fuel + 1) classes data base 0x07 =
        .ok (base + 12, .bin (hexBytes (pySlice data base (base + 12))))) ∧
    (∀ bs : List Nat, bs.length = 12 → hexBytes bs ≠ bs) := by
  constructor
  · intro fuel classes data base
    rw [decode_value]
    norm_num
  · intro bs hlen heq
    have := congrArg List.length heq
    rw [hexBytes_length] at this
    omega

/-- C9 witness: tag `0x07` at the start of `b'\xab'` (Python slices clamp)
decodes to the hex characters of `0xAB`, and the hex expansion of a
12-byte payload differs from the payload. -/
theorem c9_object_id_hex_witness :
    decode_value 1 [] [0xAB] 0 0x07 = .ok (12, .bin [0x61, 0x62]) ∧
    hexBytes [0, 0, 0, 0, 0, 0, 0, 0, 0, 0, 0, 0] ≠ [0, 0, 0, 0, 0, 0, 0, 0, 0, 0, 0, 0] :=
  ⟨c9_object_id_hex.1 0 [] [0xAB] 0, c9_object_id_hex.2 _ rfl⟩

/-- C6: a value whose shape the dispatcher does not recognise is handed
to the unknown-value hook when one is supplied, and its result is
re-dispatched through the same dispatcher with the same name, state and
hooks; without a hook, encoding fails with the unknown-serializer error
naming the offending key and value. -/
theorem c6_unknown_hook :
    (∀ (fuel : Nat) (name : PyKey) (u : Nat) (st : EncSt) (g : Option GenFunc),
      encode_value (fuel + 1) name (.unknown u) st g none =
        (st, .error (.unknownSerializer name (.unknown u)))) ∧
    (∀ (fuel : Nat) (name : PyKey) (u : Nat) (st : EncSt) (g : Option GenFunc)
        (h : OnUnknown),
      encode_value (fuel + 1) name (.unknown u) st g (some h) =
        encode_value fuel name (h u) st g (some h)) :=
  ⟨fun _ _ _ _ _ => rfl, fun _ _ _ _ _ _ => rfl⟩

/-- The length prefix written by the container encoders is correct. -/
theorem pack_prefix_correct (e_list l : List Nat)
    (hp : packInt32 ((e_list.length : Int) + 4 + 1) = some l) :
    (fromLE ((l ++ e_list ++ [0]).take 4) : Int) = ((l ++ e_list ++ [0]).length : Int) := by
  have hlen4 := packInt32_length _ _ hp
  have hval := packInt32_nonneg _ _ hp (by positivity)
  rw [List.append_assoc, List.take_append_eq_append_take]
  rw [show l.take 4 = l from List.take_of_length_le (by omega)]
  rw [show 4 - l.length = 0 by omega]
  simp only [List.take_zero, List.append_nil]
  rw [hval]
  simp
  omega

/-- C3: on success, the first four bytes of the output of
`encode_document` and of `encode_array` are the little-endian encoding of
the output's total byte length (the element bytes plus the 4 length bytes
plus the single trailing NUL).  Nested documents and arrays are encoded by
these same two functions, so every emitted length prefix satisfies this. -/
theorem c3_length_prefix :
    (∀ (fuel : Nat) (obj : PyDict) (st : EncSt) (tp : Value) (g : Option GenFunc)
        (onu : Option OnUnknown) (st' : EncSt) (bs : List Nat),
      encode_document fuel obj st tp g onu = (st', .ok bs) →
        (fromLE (bs.take 4) : Int) = (bs.length : Int)) ∧
    (∀ (fuel : Nat) (xs : List Value) (st : EncSt) (tp : Value) (g : Option GenFunc)
        (onu : Option OnUnknown) (st' : EncSt) (bs : List Nat),
      encode_array fuel xs st tp g onu = (st', .ok bs) →
        (fromLE (bs.take 4) : Int) = (bs.length : Int)) := by
  constructor
  · intro fuel obj st tp g onu st' bs h
    match fuel with
    | 0 => rw [encode_document_zero] at h; simp at h
    | fuel + 1 =>
        cases g with
        | none =>
            rw [encode_document_unfold_none] at h
            obtain ⟨st1, e_list, l, _, hp, _, h2⟩ := pack_e_list_ok _ _ _ h
            subst h2
            exact pack_prefix_correct e_list l hp
        | some gf =>
            rw [encode_document_unfold_some] at h
            obtain ⟨st1, e_list, l, _, hp, _, h2⟩ := pack_e_list_ok _ _ _ h
            subst h2
            exact pack_prefix_correct e_list l hp
  · intro fuel xs st tp g onu st' bs h
    match fuel with
    | 0 => rw [encode_array_zero] at h; simp at h
    | fuel + 1 =>
        rw [encode_array_unfold] at h
        obtain ⟨st1, e_list, l, _, hp, _, h2⟩ := pack_e_list_ok _ _ _ h
        subst h2
        exact pack_prefix_correct e_list l hp

/-- C3 witness: the encoding of `{"key": False}` (11 bytes) carries the
prefix 11. -/
theorem c3_length_prefix_witness :
    (fromLE ([0x0b, 0x00, 0x00, 0x00, 0x08, 0x6b, 0x65, 0x79, 0x00, 0x00,
        0x00].take 4) : Int) =
      (([0x0b, 0x00, 0x00, 0x00, 0x08, 0x6b, 0x65, 0x79, 0x00, 0x00,
        0x00] : List Nat).length : Int) :=
  c3_length_prefix.1 5 [(.str (pstr "key"), .bool false)] ⟨[], []⟩ .null none none
    ⟨[], []⟩ _ rfl

end ZBson
